import Mathlib

/-!
Verification of the SensorTest repository's Sensor Plugin Coordination Engine.

This file gives a shallow embedding of the parts of `sensorapp/gpio_app.py`
and `sensorapp/plugins_loader.py` that the specification's claims are about:

* the pin identity data (`PIN_MAP` / `BUS_PINS`, `PHYS_TO_BCM` / `BCM_TO_PHYS`,
  `get_display_pin`),
* plugin discovery and registration (`load_gpio_plugins`) and the selectable
  catalog (`build_plugin_options`),
* the full-range scan (`GPIOApp.scan_gpio`), the single-pin scan
  (`GPIOApp.scan_pin`) and the poll loop (`GPIOApp.poll_sensors_periodically`),
  modelled as generators of explicit event traces (semaphore acquire/release,
  plugin `detect`/`read` calls, `update_sensor` display writes, poll-task
  cancellation/start), with plugin behaviour (detected / not present /
  timeout / exception) supplied as an environment parameter,
* manual assignment (`GPIOApp.on_select_changed`) and the plugin context
  object (`_PluginCtx`).

Python dicts are embedded as association lists with insertion-order,
overwrite-on-duplicate-key semantics (`dictInsert`), matching dict
iteration order.  Cooperative cancellation of the full-range scan is
modelled by an optional index naming the candidate pin at whose leading
`asyncio.sleep` the `CancelledError` is delivered.
-/

namespace SensorTest

/-! ## Python-dict helpers (association lists, insertion ordered) -/

/-- Lookup in an association list (`d.get(k)`), first match wins.  Python
dicts have unique keys, which `dictInsert` maintains. -/
def alookup {α β : Type} [DecidableEq α] (d : List (α × β)) (k : α) : Option β :=
  (d.find? (fun kv => decide (kv.1 = k))).map (fun kv => kv.2)

/-- Python `d[k] = v`: overwrite in place when the key exists (keeping its
insertion position), append otherwise. -/
def dictInsert {α β : Type} [DecidableEq α] (d : List (α × β)) (k : α) (v : β) :
    List (α × β) :=
  if d.any (fun kv => decide (kv.1 = k)) then
    d.map (fun kv => if kv.1 = k then (k, v) else kv)
  else
    d ++ [(k, v)]

theorem alookup_nil {α β : Type} [DecidableEq α] (k : α) :
    alookup ([] : List (α × β)) k = none := rfl

theorem alookup_cons {α β : Type} [DecidableEq α] (kv : α × β) (d : List (α × β)) (k : α) :
    alookup (kv :: d) k = if kv.1 = k then some kv.2 else alookup d k := by
  by_cases h : kv.1 = k <;> simp [alookup, List.find?, h]

/-! ## Pin identity data (gpio_app.py lines 32-33, 60-66, 301-302) -/

/-- PIN_MAP from gpio_app.py: reserved bus-function lines, keyed by BCM pin. -/
def PIN_MAP : List (Nat × String) :=
  [(2, "I2C SDA"), (3, "I2C SCL"), (14, "UART TX"), (15, "UART RX"),
   (10, "SPI MOSI"), (9, "SPI MISO"), (11, "SPI SCLK"), (8, "SPI CE0"), (7, "SPI CE1")]

/-- BUS_PINS = set(PIN_MAP.keys()). -/
def BUS_PINS : List Nat := PIN_MAP.map (fun kv => kv.1)

/-- PHYS_TO_BCM from GPIOApp.__init__: physical header position to BCM line. -/
def PHYS_TO_BCM : List (Nat × Nat) :=
  [(3, 2), (5, 3), (7, 4), (8, 14), (10, 15), (11, 17), (12, 18), (13, 27), (15, 22),
   (16, 23), (18, 24), (19, 10), (21, 9), (22, 25), (23, 11), (24, 8), (26, 7),
   (29, 5), (31, 6), (32, 12), (33, 13), (35, 19), (36, 16), (37, 26), (38, 20), (40, 21)]

/-- BCM_TO_PHYS = invert PHYS_TO_BCM (GPIOApp.__init__ line 66). -/
def BCM_TO_PHYS : List (Nat × Nat) := PHYS_TO_BCM.map (fun kv => (kv.2, kv.1))

/-- GPIOApp.get_display_pin: `return self.BCM_TO_PHYS.get(bcm_pin, bcm_pin)` —
dictionary get with the input itself as the default.  The mapping is a
parameter because `build_table_rows` can rebuild `BCM_TO_PHYS` at runtime. -/
def get_display_pin (bcmToPhys : List (Nat × Nat)) (bcm_pin : Nat) : Nat :=
  (alookup bcmToPhys bcm_pin).getD bcm_pin

/-- C9: the display translation returns the mapped physical pin when a
mapping exists and otherwise returns its input unchanged; being a Lean
function it is total and never fails. -/
theorem get_display_pin_total_with_fallback
    (m : List (Nat × Nat)) (p : Nat) :
    (∀ q, alookup m p = some q → get_display_pin m p = q) ∧
    (alookup m p = none → get_display_pin m p = p) := by
  constructor
  · intro q hq
    simp [get_display_pin, hq]
  · intro h
    simp [get_display_pin, h]

/-- Witness for C9 on the real BCM_TO_PHYS table: BCM 4 displays as physical
pin 7, and an unmapped line (BCM 0) falls back to itself. -/
theorem get_display_pin_total_with_fallback_witness :
    get_display_pin BCM_TO_PHYS 4 = 7 ∧ get_display_pin BCM_TO_PHYS 0 = 0 := by
  refine ⟨(get_display_pin_total_with_fallback BCM_TO_PHYS 4).1 7 (by decide), ?_⟩
  exact (get_display_pin_total_with_fallback BCM_TO_PHYS 0).2 (by decide)

/-! ## Plugin model and the registry (plugins_loader.py) -/

/-- The attributes of a plugin instance that the coordinator reads
(`name`, `auto_detectable`, `pin_roles`).  `tag` models Python object
identity, so that instances produced by different source files can be told
apart even when their visible attributes coincide. -/
structure PluginInfo where
  name : String
  auto_detectable : Bool
  pin_roles : List String
  tag : Nat
  deriving DecidableEq, Repr

/-- A candidate module file found by `pkgutil.iter_modules` in one plugin
directory: its module name and the plugin produced by its `get_plugin`
factory (`none` models a missing/non-callable factory, a factory that
raises, or a failed import). -/
structure PyModule where
  modName : String
  plugin : Option PluginInfo
  deriving DecidableEq, Repr

/-- State threaded through `load_gpio_plugins`: the `sys.modules` import
cache, the registry dict `plugins`, and the chronological list of
successful `plugins[name] = instance` registrations (for stating the
last-discovered-wins property). -/
structure LoadState where
  cache : List (String × PyModule)
  reg : List (String × PluginInfo)
  regEvents : List (String × PluginInfo)
  deriving DecidableEq, Repr

/-- Python's `importlib.import_module`: return the cached module when this
module name was imported before (possibly from an earlier directory),
otherwise load the file at hand and cache it. -/
def importModule (cache : List (String × PyModule)) (m : PyModule) :
    List (String × PyModule) × PyModule :=
  match alookup cache m.modName with
  | some m0 => (cache, m0)
  | none => (cache ++ [(m.modName, m)], m)

/-- Registration tail of the loader loop: skip a module without a usable
factory result, skip an instance with an empty `name`, otherwise perform
`plugins[name] = instance` (and log the registration event). -/
def registerPlugin (st : LoadState) (cache : List (String × PyModule)) :
    Option PluginInfo → LoadState
  | none => { st with cache := cache }
  | some p =>
    if p.name = "" then { st with cache := cache }
    else
      { cache := cache,
        reg := dictInsert st.reg p.name p,
        regEvents := st.regEvents ++ [(p.name, p)] }

/-- One iteration of the inner loop of `load_gpio_plugins`: skip
`__init__`/`base`, import the module, then register the produced
instance when it has a non-empty `name`. -/
def loadStep (st : LoadState) (m : PyModule) : LoadState :=
  if m.modName = "__init__" ∨ m.modName = "base" then st
  else
    let imp := importModule st.cache m
    registerPlugin st imp.1 imp.2.plugin

/-- load_gpio_plugins: directories are scanned in order — the
SENSOR_PLUGINS_DIR override directory first (when the variable is set),
then the built-in `plugins` / `Plugins` directories. -/
def load_gpio_plugins (envDir : Option (List PyModule))
    (builtinDirs : List (List PyModule)) : LoadState :=
  (((match envDir with | some d => [d] | none => []) ++ builtinDirs).flatten).foldl
    loadStep ⟨[], [], []⟩

/-! Dictionary lemmas used for the registry invariants. -/

theorem dictInsert_of_present {α β : Type} [DecidableEq α]
    (d : List (α × β)) (k : α) (v : β) (h : d.any (fun kv => decide (kv.1 = k)) = true) :
    dictInsert d k v = d.map (fun kv => if kv.1 = k then (k, v) else kv) := by
  simp only [dictInsert, h, if_true]

theorem dictInsert_of_absent {α β : Type} [DecidableEq α]
    (d : List (α × β)) (k : α) (v : β)
    (h : d.any (fun kv => decide (kv.1 = k)) = false) :
    dictInsert d k v = d ++ [(k, v)] := by
  simp only [dictInsert, h]
  rfl

theorem absent_iff {α β : Type} [DecidableEq α] (d : List (α × β)) (k : α) :
    d.any (fun kv => decide (kv.1 = k)) = false ↔ ∀ kv ∈ d, kv.1 ≠ k := by
  rw [← Bool.not_eq_true, List.any_eq_true]
  constructor
  · intro h kv hkv he
    exact h ⟨kv, hkv, by simp [he]⟩
  · rintro h ⟨kv, hkv, he⟩
    exact h kv hkv (by simpa using he)

theorem alookup_append {α β : Type} [DecidableEq α]
    (d e : List (α × β)) (n : α) :
    alookup (d ++ e) n =
      match alookup d n with
      | some v => some v
      | none => alookup e n := by
  induction d with
  | nil => simp [alookup]
  | cons kv d ih =>
    rw [List.cons_append, alookup_cons, alookup_cons]
    by_cases hn : kv.1 = n
    · simp [hn]
    · simp only [if_neg hn]
      exact ih

theorem alookup_eq_none_of_absent {α β : Type} [DecidableEq α]
    (d : List (α × β)) (k : α) (h : ∀ kv ∈ d, kv.1 ≠ k) :
    alookup d k = none := by
  induction d with
  | nil => rfl
  | cons kv d ih =>
    rw [alookup_cons, if_neg (h kv (List.mem_cons_self kv d))]
    exact ih (fun kv2 h2 => h kv2 (List.mem_cons_of_mem kv h2))

theorem fst_dictInsert {α β : Type} [DecidableEq α]
    (d : List (α × β)) (k : α) (v : β) (h : d.any (fun kv => decide (kv.1 = k)) = true) :
    (dictInsert d k v).map Prod.fst = d.map Prod.fst := by
  rw [dictInsert_of_present d k v h, List.map_map]
  apply List.map_congr_left
  intro kv _
  by_cases hk : kv.1 = k <;> simp [hk]

theorem keys_nodup_dictInsert {α β : Type} [DecidableEq α]
    (d : List (α × β)) (k : α) (v : β)
    (h : (d.map Prod.fst).Nodup) : ((dictInsert d k v).map Prod.fst).Nodup := by
  cases hp : d.any (fun kv => decide (kv.1 = k)) with
  | true => rw [fst_dictInsert d k v hp]; exact h
  | false =>
    have hk : ∀ kv ∈ d, kv.1 ≠ k := (absent_iff d k).mp hp
    rw [dictInsert_of_absent d k v hp, List.map_append]
    rw [List.nodup_append]
    refine ⟨h, List.nodup_singleton k, ?_⟩
    intro a ha hb
    simp only [List.map_cons, List.map_nil, List.mem_singleton] at hb
    obtain ⟨kv, hkv, rfl⟩ := List.mem_map.mp ha
    exact hk kv hkv hb

theorem alookup_map_overwrite_self {α β : Type} [DecidableEq α]
    (d : List (α × β)) (k : α) (v : β) (h : d.any (fun kv => decide (kv.1 = k)) = true) :
    alookup (d.map (fun kv => if kv.1 = k then (k, v) else kv)) k = some v := by
  induction d with
  | nil => simp at h
  | cons kv d ih =>
    simp only [List.any_cons, Bool.or_eq_true, decide_eq_true_eq] at h
    by_cases hk : kv.1 = k
    · simp [alookup_cons, hk]
    · rw [List.map_cons, if_neg hk, alookup_cons, if_neg hk]
      exact ih (h.resolve_left hk)

theorem alookup_map_overwrite_other {α β : Type} [DecidableEq α]
    (d : List (α × β)) (k : α) (v : β) (n : α) (hn : k ≠ n) :
    alookup (d.map (fun kv => if kv.1 = k then (k, v) else kv)) n = alookup d n := by
  induction d with
  | nil => rfl
  | cons kv d ih =>
    by_cases hk : kv.1 = k
    · rw [List.map_cons, if_pos hk, alookup_cons, alookup_cons, if_neg hn,
        if_neg (fun he : kv.1 = n => hn (hk ▸ he))]
      exact ih
    · rw [List.map_cons, if_neg hk, alookup_cons, alookup_cons]
      by_cases h2 : kv.1 = n
      · simp [h2]
      · rw [if_neg h2, if_neg h2]
        exact ih

theorem alookup_dictInsert {α β : Type} [DecidableEq α]
    (d : List (α × β)) (k : α) (v : β) (n : α) :
    alookup (dictInsert d k v) n = if k = n then some v else alookup d n := by
  cases hp : d.any (fun kv => decide (kv.1 = k)) with
  | true =>
    rw [dictInsert_of_present d k v hp]
    by_cases hn : k = n
    · subst hn
      rw [if_pos rfl]
      exact alookup_map_overwrite_self d k v hp
    · rw [if_neg hn]
      exact alookup_map_overwrite_other d k v n hn
  | false =>
    rw [dictInsert_of_absent d k v hp, alookup_append]
    by_cases hn : k = n
    · subst hn
      rw [alookup_eq_none_of_absent d k ((absent_iff d k).mp hp)]
      simp [alookup_cons]
    · rw [if_neg hn]
      cases halt : alookup d n with
      | some w => rfl
      | none =>
        simp only [alookup_cons, if_neg hn, alookup_nil]

/-! ## Registry invariants (C5) -/

/-- Invariant of the loader state: the registry has unique names, and each
name maps to the instance from the most recent registration event. -/
def RegInv (st : LoadState) : Prop :=
  (st.reg.map Prod.fst).Nodup ∧
  ∀ n, alookup st.reg n = alookup st.regEvents.reverse n

theorem registerPlugin_regInv (st : LoadState) (cache : List (String × PyModule))
    (op : Option PluginInfo) (h : RegInv st) :
    RegInv (registerPlugin st cache op) := by
  obtain ⟨hnodup, hlast⟩ := h
  cases op with
  | none => exact ⟨hnodup, hlast⟩
  | some p =>
    by_cases hname : p.name = ""
    · rw [registerPlugin, if_pos hname]
      exact ⟨hnodup, hlast⟩
    · rw [registerPlugin, if_neg hname]
      refine ⟨keys_nodup_dictInsert st.reg p.name p hnodup, ?_⟩
      intro n
      rw [alookup_dictInsert]
      simp only [List.reverse_append, List.reverse_cons, List.reverse_nil,
        List.nil_append, List.singleton_append, alookup_cons]
      by_cases hn : p.name = n
      · simp [hn]
      · rw [if_neg hn, if_neg hn, hlast n]

theorem loadStep_regInv (st : LoadState) (m : PyModule) (h : RegInv st) :
    RegInv (loadStep st m) := by
  rw [loadStep]
  by_cases hskip : m.modName = "__init__" ∨ m.modName = "base"
  · rw [if_pos hskip]; exact h
  · rw [if_neg hskip]
    exact registerPlugin_regInv st _ _ h

theorem foldl_loadStep_regInv (ms : List PyModule) (st : LoadState) (h : RegInv st) :
    RegInv (ms.foldl loadStep st) := by
  induction ms generalizing st with
  | nil => exact h
  | cons m ms ih => exact ih (loadStep st m) (loadStep_regInv st m h)

/-- C5 (amended): after discovery the registry contains exactly one entry
per plugin name, and for each name the registered instance is the
last-discovered one (the value of the most recent registration event).
The override-precedence part of the claim fails (see the counterexample):
the SENSOR_PLUGINS_DIR directory is scanned first, so under last-wins a
built-in module file of a different name producing the same plugin name
overwrites the override's entry; the override's instance persists only
when the module filenames coincide, because the import cache then serves
the override's module (final conjunct, concrete instance). -/
theorem load_gpio_plugins_unique_names_last_wins
    (envDir : Option (List PyModule)) (builtinDirs : List (List PyModule)) :
    (((load_gpio_plugins envDir builtinDirs).reg.map Prod.fst).Nodup) ∧
    (∀ n, alookup (load_gpio_plugins envDir builtinDirs).reg n =
        alookup (load_gpio_plugins envDir builtinDirs).regEvents.reverse n) ∧
    (alookup (load_gpio_plugins
        (some [⟨"foo", some ⟨"Foo", true, [], 0⟩⟩])
        [[⟨"foo", some ⟨"Foo", true, [], 1⟩⟩]]).reg "Foo" =
      some ⟨"Foo", true, [], 0⟩) := by
  have hinv : RegInv (load_gpio_plugins envDir builtinDirs) :=
    foldl_loadStep_regInv _ ⟨[], [], []⟩ ⟨List.nodup_nil, fun _ => rfl⟩
  exact ⟨hinv.1, hinv.2, by decide⟩

/-- C5 counterexample: the override directory does not take precedence.
With SENSOR_PLUGINS_DIR scanned first and last-discovered-wins
registration, a built-in module file (distinct filename) whose plugin is
also named "Foo" ends up registered, displacing the override's distinct
instance. -/
theorem load_gpio_plugins_override_precedence_counterexample :
    alookup (load_gpio_plugins
        (some [⟨"foo_env", some ⟨"Foo", true, [], 0⟩⟩])
        [[⟨"foo_builtin", some ⟨"Foo", true, [], 1⟩⟩]]).reg "Foo" =
      some ⟨"Foo", true, [], 1⟩ ∧
    (⟨"Foo", true, [], 1⟩ : PluginInfo) ≠ ⟨"Foo", true, [], 0⟩ := by
  decide

/-! ## The selectable catalog (plugins_loader.build_plugin_options, C7) -/

/-- The f-string label `f"{name}:{role}"`. -/
def joinS (a b : String) : String := a ++ ":" ++ b

/-- A string with no ':' separator in it (ordinary plugin and role names). -/
def colonFree (s : String) : Prop := ':' ∉ s.data

instance (s : String) : Decidable (colonFree s) :=
  inferInstanceAs (Decidable (':' ∉ s.data))

theorem joinS_data (a b : String) : (joinS a b).data = a.data ++ ':' :: b.data := by
  show ((a ++ ":") ++ b).data = _
  have h1 : ∀ s t : String, (s ++ t).data = s.data ++ t.data := fun _ _ => rfl
  rw [h1, h1, List.append_assoc]
  rfl

theorem split_colon_injective (xs : List Char) :
    ∀ (us ys vs : List Char), ':' ∉ xs → ':' ∉ us →
      xs ++ ':' :: ys = us ++ ':' :: vs → xs = us ∧ ys = vs := by
  induction xs with
  | nil =>
    intro us ys vs _ hu h
    cases us with
    | nil => simpa using h
    | cons u us' =>
      rw [List.nil_append, List.cons_append] at h
      injection h with h1 h2
      exact absurd (h1 ▸ List.mem_cons_self u us') hu
  | cons x xs' ih =>
    intro us ys vs hx hu h
    cases us with
    | nil =>
      rw [List.cons_append, List.nil_append] at h
      injection h with h1 h2
      exact absurd (h1 ▸ List.mem_cons_self x xs') hx
    | cons u us' =>
      rw [List.cons_append, List.cons_append] at h
      injection h with h1 h2
      subst h1
      have hx' : ':' ∉ xs' := fun hm => hx (List.mem_cons_of_mem x hm)
      have hu' : ':' ∉ us' := fun hm => hu (List.mem_cons_of_mem x hm)
      obtain ⟨e1, e2⟩ := ih us' ys vs hx' hu' h2
      exact ⟨by rw [e1], e2⟩

theorem joinS_inj (a b c d : String) (ha : colonFree a) (hc : colonFree c)
    (h : joinS a b = joinS c d) : a = c ∧ b = d := by
  have hd := congrArg String.data h
  rw [joinS_data, joinS_data] at hd
  obtain ⟨h1, h2⟩ := split_colon_injective a.data c.data b.data d.data ha hc hd
  exact ⟨String.ext h1, String.ext h2⟩

theorem bare_ne_joinS (n a b : String) (hn : colonFree n) : n ≠ joinS a b := by
  intro h
  apply hn
  rw [show n.data = (joinS a b).data from congrArg String.data h, joinS_data]
  exact List.mem_append_right _ (List.mem_cons_self _ _)

/-- Insertion step of Python's `sorted` over the registry's keys. -/
def insertByName (x : String × PluginInfo) :
    List (String × PluginInfo) → List (String × PluginInfo)
  | [] => [x]
  | y :: ys => if x.1 < y.1 then x :: y :: ys else y :: insertByName x ys

/-- `sorted(plugins.keys())` paired back with the looked-up instances; the
catalog builder iterates names in sorted order. -/
def sortByName (l : List (String × PluginInfo)) : List (String × PluginInfo) :=
  l.foldr insertByName []

/-- One plugin's contribution to the catalog: one `(label, label)` option
per role when `pin_roles` is a non-empty sequence, a single bare
`(name, name)` option otherwise. -/
def expandPlugin (kv : String × PluginInfo) : List (String × String) :=
  if kv.2.pin_roles = [] then [(kv.1, kv.1)]
  else kv.2.pin_roles.map (fun role => (joinS kv.1 role, joinS kv.1 role))

/-- build_plugin_options: expand each plugin in sorted-name order, then
append the fixed manual bus-device option ("I2C Device" labelling the
value "I2C"). -/
def build_plugin_options (plugins : List (String × PluginInfo)) :
    List (String × String) :=
  (sortByName plugins).flatMap expandPlugin ++ [("I2C Device", "I2C")]

theorem insertByName_perm (x : String × PluginInfo) (l : List (String × PluginInfo)) :
    (insertByName x l).Perm (x :: l) := by
  induction l with
  | nil => exact List.Perm.refl _
  | cons y ys ih =>
    rw [insertByName]
    by_cases h : x.1 < y.1
    · rw [if_pos h]
    · rw [if_neg h]
      exact List.Perm.trans (List.Perm.cons y ih) (List.Perm.swap x y ys)

theorem sortByName_perm (l : List (String × PluginInfo)) : (sortByName l).Perm l := by
  induction l with
  | nil => exact List.Perm.refl _
  | cons x xs ih =>
    exact List.Perm.trans (insertByName_perm x (sortByName xs)) (List.Perm.cons x ih)

/-- Occurrence count, pinned to `DecidableEq` so all catalog counting uses
one definition. -/
def countOcc {α : Type} [DecidableEq α] (x : α) : List α → Nat
  | [] => 0
  | y :: ys => (if y = x then 1 else 0) + countOcc x ys

theorem countOcc_append {α : Type} [DecidableEq α] (x : α) (l m : List α) :
    countOcc x (l ++ m) = countOcc x l + countOcc x m := by
  induction l with
  | nil => simp [countOcc]
  | cons y ys ih =>
    rw [List.cons_append, countOcc, countOcc, ih, Nat.add_assoc]

theorem countOcc_eq_zero_of_not_mem {α : Type} [DecidableEq α] {x : α} {l : List α}
    (h : x ∉ l) : countOcc x l = 0 := by
  induction l with
  | nil => rfl
  | cons y ys ih =>
    rw [countOcc]
    by_cases he : y = x
    · exact absurd (he ▸ List.mem_cons_self y ys) h
    · rw [if_neg he, Nat.zero_add]
      exact ih (fun hm => h (List.mem_cons_of_mem y hm))

theorem countOcc_eq_one_of_nodup_mem {α : Type} [DecidableEq α] {x : α} {l : List α}
    (hnd : l.Nodup) (h : x ∈ l) : countOcc x l = 1 := by
  induction l with
  | nil => cases h
  | cons y ys ih =>
    obtain ⟨hy, hys⟩ := List.nodup_cons.mp hnd
    rw [countOcc]
    by_cases he : y = x
    · subst he
      rw [if_pos rfl, countOcc_eq_zero_of_not_mem hy]
    · rw [if_neg he, Nat.zero_add]
      cases List.mem_cons.mp h with
      | inl h1 => exact absurd h1.symm he
      | inr h2 => exact ih hys h2

theorem countOcc_map_of_injective {α β : Type} [DecidableEq α] [DecidableEq β]
    (l : List α) (f : α → β) (hf : Function.Injective f) (a : α) :
    countOcc (f a) (l.map f) = countOcc a l := by
  induction l with
  | nil => rfl
  | cons b l ih =>
    rw [List.map_cons, countOcc, countOcc, ih]
    congr 1
    by_cases h : b = a
    · rw [if_pos h, if_pos (by rw [h])]
    · rw [if_neg h, if_neg (fun he => h (hf he))]

theorem countOcc_perm {α : Type} [DecidableEq α] {l m : List α} (h : l.Perm m) (x : α) :
    countOcc x l = countOcc x m := by
  induction h with
  | nil => rfl
  | cons a _ ih => rw [countOcc, countOcc, ih]
  | swap a b l =>
    rw [countOcc, countOcc, countOcc, countOcc, ← Nat.add_assoc, ← Nat.add_assoc,
      Nat.add_comm (if b = x then 1 else 0) (if a = x then 1 else 0)]
  | trans _ _ ih1 ih2 => exact ih1.trans ih2

theorem countOcc_flatMap {α β : Type} [DecidableEq β] (l : List α) (f : α → List β) (x : β) :
    countOcc x (l.flatMap f) = (l.map (fun a => countOcc x (f a))).sum := by
  induction l with
  | nil => rfl
  | cons a l ih => rw [List.flatMap_cons, countOcc_append, ih, List.map_cons, List.sum_cons]

theorem count_build_plugin_options (plugins : List (String × PluginInfo)) (x : String × String) :
    countOcc x (build_plugin_options plugins) =
      (plugins.map (fun kv => countOcc x (expandPlugin kv))).sum
        + countOcc x [("I2C Device", "I2C")] := by
  rw [build_plugin_options, countOcc_append,
    countOcc_perm ((sortByName_perm plugins).flatMap_right expandPlugin) x,
    countOcc_flatMap]

theorem expandPlugin_entry_label_eq_value (kv : String × PluginInfo)
    (x : String × String) (hx : x ∈ expandPlugin kv) : x.1 = x.2 := by
  rw [expandPlugin] at hx
  by_cases h : kv.2.pin_roles = []
  · rw [if_pos h] at hx
    simp only [List.mem_singleton] at hx
    rw [hx]
  · rw [if_neg h] at hx
    obtain ⟨r, _, rfl⟩ := List.mem_map.mp hx
    rfl

theorem expandPlugin_count_other (k r : String) (kv : String × PluginInfo)
    (hk : colonFree k) (hkv : colonFree kv.1) (hne : kv.1 ≠ k) :
    countOcc (joinS k r, joinS k r) (expandPlugin kv) = 0 ∧
    countOcc ((k, k) : String × String) (expandPlugin kv) = 0 := by
  constructor
  · apply countOcc_eq_zero_of_not_mem
    intro hmem
    rw [expandPlugin] at hmem
    by_cases h : kv.2.pin_roles = []
    · rw [if_pos h] at hmem
      simp only [List.mem_singleton, Prod.mk.injEq] at hmem
      exact bare_ne_joinS kv.1 k r hkv hmem.1.symm
    · rw [if_neg h] at hmem
      obtain ⟨r', _, heq⟩ := List.mem_map.mp hmem
      have : joinS kv.1 r' = joinS k r := congrArg Prod.fst heq
      exact hne (joinS_inj kv.1 r' k r hkv hk this).1
  · apply countOcc_eq_zero_of_not_mem
    intro hmem
    rw [expandPlugin] at hmem
    by_cases h : kv.2.pin_roles = []
    · rw [if_pos h] at hmem
      simp only [List.mem_singleton, Prod.mk.injEq] at hmem
      exact hne hmem.1.symm
    · rw [if_neg h] at hmem
      obtain ⟨r', _, heq⟩ := List.mem_map.mp hmem
      have : k = joinS kv.1 r' := (congrArg Prod.fst heq).symm
      exact bare_ne_joinS k kv.1 r' hk this

theorem expandPlugin_count_own_multi (k : String) (p : PluginInfo)
    (hroles : p.pin_roles ≠ []) (hnd : p.pin_roles.Nodup) (hk : colonFree k)
    (r : String) (hr : r ∈ p.pin_roles) :
    countOcc (joinS k r, joinS k r) (expandPlugin (k, p)) = 1 ∧
    countOcc ((k, k) : String × String) (expandPlugin (k, p)) = 0 := by
  have he : expandPlugin (k, p) =
      if p.pin_roles = [] then [(k, k)]
      else p.pin_roles.map (fun role => (joinS k role, joinS k role)) := rfl
  constructor
  · rw [he, if_neg hroles]
    have hinj : Function.Injective (fun role => (joinS k role, joinS k role)) := by
      intro b d h
      have hb : joinS k b = joinS k d := congrArg Prod.fst h
      exact (joinS_inj k b k d hk hk hb).2
    rw [show ((joinS k r, joinS k r) : String × String) =
        (fun role => (joinS k role, joinS k role)) r from rfl]
    rw [countOcc_map_of_injective p.pin_roles _ hinj r]
    exact countOcc_eq_one_of_nodup_mem hnd hr
  · rw [he, if_neg hroles]
    apply countOcc_eq_zero_of_not_mem
    intro hmem
    obtain ⟨r', _, heq⟩ := List.mem_map.mp hmem
    exact bare_ne_joinS k k r' hk ((congrArg Prod.fst heq).symm)

theorem expandPlugin_count_own_bare_zero (k : String) (p : PluginInfo)
    (hroles : p.pin_roles ≠ []) (hk : colonFree k) :
    countOcc ((k, k) : String × String) (expandPlugin (k, p)) = 0 := by
  have he : expandPlugin (k, p) =
      if p.pin_roles = [] then [(k, k)]
      else p.pin_roles.map (fun role => (joinS k role, joinS k role)) := rfl
  rw [he, if_neg hroles]
  apply countOcc_eq_zero_of_not_mem
  intro hmem
  obtain ⟨r', _, heq⟩ := List.mem_map.mp hmem
  exact bare_ne_joinS k k r' hk ((congrArg Prod.fst heq).symm)

theorem expandPlugin_count_own_single (k : String) (p : PluginInfo)
    (hroles : p.pin_roles = []) :
    countOcc ((k, k) : String × String) (expandPlugin (k, p)) = 1 := by
  have he : expandPlugin (k, p) =
      if p.pin_roles = [] then [(k, k)]
      else p.pin_roles.map (fun role => (joinS k role, joinS k role)) := rfl
  rw [he, if_pos hroles, countOcc, if_pos rfl, countOcc]

theorem sum_map_zero_of_all_zero {α : Type} (l : List α) (g : α → Nat)
    (h : ∀ b ∈ l, g b = 0) : (l.map g).sum = 0 := by
  induction l with
  | nil => rfl
  | cons a l ih =>
    rw [List.map_cons, List.sum_cons, h a (List.mem_cons_self a l),
      ih (fun b hb => h b (List.mem_cons_of_mem a hb))]

theorem sum_map_middle {α : Type} (s t : List α) (a : α) (g : α → Nat)
    (hs : ∀ b ∈ s, g b = 0) (ht : ∀ b ∈ t, g b = 0) :
    ((s ++ a :: t).map g).sum = g a := by
  rw [List.map_append, List.sum_append, List.map_cons, List.sum_cons,
    sum_map_zero_of_all_zero s g hs, sum_map_zero_of_all_zero t g ht]
  omega

/-- C7: the catalog built from a registry (unique, ':'-free plugin names)
contains, for a plugin whose `pin_roles` is non-empty and duplicate-free,
exactly one `"{name}:{role}"` entry per role and no bare `"{name}"`
entry; for a plugin with no roles exactly one bare entry; and exactly one
fixed manual bus-device entry ("I2C Device" / "I2C") regardless of the
loaded plugins. -/
theorem build_plugin_options_catalog
    (plugins : List (String × PluginInfo))
    (hkeys : (plugins.map Prod.fst).Nodup)
    (hfree : ∀ kv ∈ plugins, colonFree kv.1)
    (k : String) (p : PluginInfo) (hmem : (k, p) ∈ plugins)
    (hnd : p.pin_roles.Nodup) :
    (p.pin_roles ≠ [] →
      (∀ r ∈ p.pin_roles,
        countOcc (joinS k r, joinS k r) (build_plugin_options plugins) = 1) ∧
      countOcc ((k, k) : String × String) (build_plugin_options plugins) = 0) ∧
    (p.pin_roles = [] →
      countOcc ((k, k) : String × String) (build_plugin_options plugins) = 1) ∧
    countOcc (("I2C Device", "I2C") : String × String) (build_plugin_options plugins) = 1 := by
  have hk : colonFree k := hfree (k, p) hmem
  obtain ⟨s, t, rfl⟩ := List.append_of_mem hmem
  have hmid : (s.map Prod.fst ++ k :: t.map Prod.fst).Nodup := by
    simpa using hkeys
  rw [List.nodup_middle] at hmid
  have hknot : k ∉ s.map Prod.fst ++ t.map Prod.fst := (List.nodup_cons.mp hmid).1
  have hks : ∀ kv ∈ s, kv.1 ≠ k := by
    intro kv hkv he
    exact hknot (List.mem_append_left _ (he ▸ List.mem_map_of_mem Prod.fst hkv))
  have hkt : ∀ kv ∈ t, kv.1 ≠ k := by
    intro kv hkv he
    exact hknot (List.mem_append_right _ (he ▸ List.mem_map_of_mem Prod.fst hkv))
  have hfs : ∀ kv ∈ s, colonFree kv.1 := fun kv hkv =>
    hfree kv (List.mem_append_left _ hkv)
  have hft : ∀ kv ∈ t, colonFree kv.1 := fun kv hkv =>
    hfree kv (List.mem_append_right _ (List.mem_cons_of_mem _ hkv))
  have hkk_zero : countOcc ((k, k) : String × String)
      [(("I2C Device" : String), ("I2C" : String))] = 0 := by
    apply countOcc_eq_zero_of_not_mem
    intro hm
    simp only [List.mem_singleton, Prod.mk.injEq] at hm
    have : ("I2C Device" : String) = "I2C" := hm.1.symm.trans hm.2
    exact absurd this (by decide)
  refine ⟨?_, ?_, ?_⟩
  · intro hroles
    constructor
    · intro r hr
      rw [count_build_plugin_options]
      have hzero : countOcc (joinS k r, joinS k r)
          [(("I2C Device" : String), ("I2C" : String))] = 0 := by
        apply countOcc_eq_zero_of_not_mem
        intro hm
        simp only [List.mem_singleton, Prod.mk.injEq] at hm
        exact bare_ne_joinS "I2C Device" k r (by decide) hm.1.symm
      rw [hzero, Nat.add_zero]
      rw [sum_map_middle s t (k, p) _
        (fun b hb => (expandPlugin_count_other k r b hk (hfs b hb) (hks b hb)).1)
        (fun b hb => (expandPlugin_count_other k r b hk (hft b hb) (hkt b hb)).1)]
      exact (expandPlugin_count_own_multi k p hroles hnd hk r hr).1
    · rw [count_build_plugin_options, hkk_zero, Nat.add_zero]
      rw [sum_map_middle s t (k, p) _
        (fun b hb => (expandPlugin_count_other k "" b hk (hfs b hb) (hks b hb)).2)
        (fun b hb => (expandPlugin_count_other k "" b hk (hft b hb) (hkt b hb)).2)]
      exact expandPlugin_count_own_bare_zero k p hroles hk
  · intro hroles
    rw [count_build_plugin_options, hkk_zero, Nat.add_zero]
    rw [sum_map_middle s t (k, p) _
      (fun b hb => (expandPlugin_count_other k "" b hk (hfs b hb) (hks b hb)).2)
      (fun b hb => (expandPlugin_count_other k "" b hk (hft b hb) (hkt b hb)).2)]
    exact expandPlugin_count_own_single k p hroles
  · rw [count_build_plugin_options]
    have hflat : ((s ++ (k, p) :: t).map
        (fun kv => countOcc (("I2C Device", "I2C") : String × String) (expandPlugin kv))).sum
          = 0 := by
      apply sum_map_zero_of_all_zero
      intro kv _
      apply countOcc_eq_zero_of_not_mem
      intro hm
      have := expandPlugin_entry_label_eq_value kv _ hm
      simp only at this
      exact absurd this (by decide)
    rw [hflat, Nat.zero_add, countOcc, if_pos rfl, countOcc]

/-- Witness for C7 on a two-plugin registry: multi-pin "Foo" with roles
CLK/DIO yields exactly the role entries and no bare entry, single-pin
"Bar" yields one bare entry, and the bus-device entry appears once. -/
theorem build_plugin_options_catalog_witness :
    countOcc (joinS "Foo" "CLK", joinS "Foo" "CLK")
      (build_plugin_options
        [("Bar", ⟨"Bar", true, [], 0⟩), ("Foo", ⟨"Foo", false, ["CLK", "DIO"], 1⟩)]) = 1 ∧
    countOcc (("Foo", "Foo") : String × String)
      (build_plugin_options
        [("Bar", ⟨"Bar", true, [], 0⟩), ("Foo", ⟨"Foo", false, ["CLK", "DIO"], 1⟩)]) = 0 ∧
    countOcc (("Bar", "Bar") : String × String)
      (build_plugin_options
        [("Bar", ⟨"Bar", true, [], 0⟩), ("Foo", ⟨"Foo", false, ["CLK", "DIO"], 1⟩)]) = 1 ∧
    countOcc (("I2C Device", "I2C") : String × String)
      (build_plugin_options
        [("Bar", ⟨"Bar", true, [], 0⟩), ("Foo", ⟨"Foo", false, ["CLK", "DIO"], 1⟩)]) = 1 := by
  have hFoo := build_plugin_options_catalog
    [("Bar", ⟨"Bar", true, [], 0⟩), ("Foo", ⟨"Foo", false, ["CLK", "DIO"], 1⟩)]
    (by decide) (by decide) "Foo" ⟨"Foo", false, ["CLK", "DIO"], 1⟩ (by decide) (by decide)
  have hBar := build_plugin_options_catalog
    [("Bar", ⟨"Bar", true, [], 0⟩), ("Foo", ⟨"Foo", false, ["CLK", "DIO"], 1⟩)]
    (by decide) (by decide) "Bar" ⟨"Bar", true, [], 0⟩ (by decide) (by decide)
  refine ⟨(hFoo.1 (by decide)).1 "CLK" (by decide), (hFoo.1 (by decide)).2,
    hBar.2.1 (by decide), hFoo.2.2⟩

/-! ## Event-trace model of scan_gpio / scan_pin / poll_sensors_periodically

The coroutine bodies are embedded as generators of explicit event traces.
The behaviour of `await asyncio.wait_for(plugin.detect(pin, ctx), ...)` is
an environment parameter `env : String → Nat → DetectOutcome` (plugin name
and pin determine the outcome), and similarly `plugin.read` is a
`String → Nat → ReadOutcome`.  `updateSensor` events record
`PinTable.update_sensor` calls with the already-translated display pin,
since `_set_scan_marker` / `_set_sensor_result` apply `get_display_pin`
before calling into the table (the poll loop's I2C branch passes the raw
pin, which the model reproduces).  Pure text-widget updates
(`detail_widget`, `status_text`) carry no claim content and produce no
events. -/

/-- Outcome of one `asyncio.wait_for(plugin.detect(pin, ctx), SCAN_PLUGIN_TIMEOUT)`. -/
inductive DetectOutcome
  | detected (sensorType info color : String)
  | notFound
  | timeout
  | error
  deriving DecidableEq, Repr

/-- Whether the outcome is a successful detection (a truthy `res`). -/
def DetectOutcome.isHit : DetectOutcome → Bool
  | .detected _ _ _ => true
  | _ => false

/-- Outcome of one `await plugin.read(pin, ctx)` in the poll loop. -/
inductive ReadOutcome
  | ok (sensorType info color : String)
  | noResult
  | failure
  deriving DecidableEq, Repr

inductive Event
  | semAcquire
  | semRelease
  | detectCall (plugin : String) (pin : Nat)
  | readCall (plugin : String) (pin : Nat)
  | updateSensor (dispPin : Nat) (sensorType info color : String)
  | pollCancelled
  | pollStarted
  deriving DecidableEq, Repr

/-- Inner plugin loop of `GPIOApp.scan_gpio` for one pin: skip plugins
that are not auto-detectable; otherwise set the "Scan {name}" marker,
acquire gpio_sem, call `detect` under `wait_for`, release, then either
record the first result and stop (`break`), mark a timeout and continue,
or just continue.  Returns the events and `found_any`. -/
def scan_gpio_plugins (m : List (Nat × Nat)) (env : String → Nat → DetectOutcome)
    (pin : Nat) : List (String × PluginInfo) → List Event × Bool
  | [] => ([], false)
  | (name, p) :: rest =>
    if p.auto_detectable = false then scan_gpio_plugins m env pin rest
    else
      let disp := get_display_pin m pin
      let pre := [Event.updateSensor disp ("Scan " ++ name) "" "yellow",
                  Event.semAcquire, Event.detectCall name pin, Event.semRelease]
      match env name pin with
      | .detected st info c => (pre ++ [Event.updateSensor disp st info c], true)
      | .notFound =>
        let r := scan_gpio_plugins m env pin rest
        (pre ++ r.1, r.2)
      | .timeout =>
        let r := scan_gpio_plugins m env pin rest
        (pre ++ [Event.updateSensor disp ("Timeout " ++ name) "" "red"] ++ r.1, r.2)
      | .error =>
        let r := scan_gpio_plugins m env pin rest
        (pre ++ r.1, r.2)

/-- The candidate pins `range(2, 28)` of the full-range scan. -/
def candidate_range : List Nat := List.range' 2 26

/-- Events of one candidate pin of the full-range scan: the plugin loop,
followed by the "-"/red marker when no plugin matched (`if not found_any`). -/
def scanCandidate (m : List (Nat × Nat)) (env : String → Nat → DetectOutcome)
    (plugins : List (String × PluginInfo)) (pin : Nat) : List Event :=
  let r := scan_gpio_plugins m env pin plugins
  if r.2 then r.1
  else r.1 ++ [Event.updateSensor (get_display_pin m pin) "-" "" "red"]

/-- Pin loop of `GPIOApp.scan_gpio`: skip reserved bus pins and pins with
an Assignment Store entry; at each remaining pin the leading
`asyncio.sleep(SCAN_PIN_DELAY)` is a cancellation point, modelled by
`cancelAt = some k` delivering CancelledError at the k-th candidate pin
(the body's `except asyncio.CancelledError: return` then ends the trace).
Returns the events and whether the loop ran to completion. -/
def scanPins (m : List (Nat × Nat)) (env : String → Nat → DetectOutcome)
    (plugins : List (String × PluginInfo)) (fixed : List (Nat × String)) :
    List Nat → Option Nat → List Event × Bool
  | [], _ => ([], true)
  | pin :: rest, cancelAt =>
    if pin ∈ BUS_PINS then scanPins m env plugins fixed rest cancelAt
    else if (alookup fixed pin).isSome then scanPins m env plugins fixed rest cancelAt
    else
      match cancelAt with
      | some 0 => ([], false)
      | some (Nat.succ k) =>
        let rest' := scanPins m env plugins fixed rest (some k)
        (scanCandidate m env plugins pin ++ rest'.1, rest'.2)
      | none =>
        let rest' := scanPins m env plugins fixed rest none
        (scanCandidate m env plugins pin ++ rest'.1, rest'.2)

/-- Per-run inputs of `GPIOApp.scan_gpio`: the registry (dict, in
registration order), the Assignment Store `fixed_pin_sensors`, and
whether the poll task is currently running. -/
structure ScanConfig where
  plugins : List (String × PluginInfo)
  fixed : List (Nat × String)
  pollRunning : Bool

/-- GPIOApp.scan_gpio: cancel a running poll task first; iterate the
candidate range; on normal completion (and only then — the
CancelledError handler returns before reaching the restart line) start a
fresh poll task.  Returns the trace and whether the scan completed. -/
def scan_gpio (m : List (Nat × Nat)) (cfg : ScanConfig)
    (env : String → Nat → DetectOutcome) (cancelAt : Option Nat) : List Event × Bool :=
  let pre := if cfg.pollRunning then [Event.pollCancelled] else []
  let r := scanPins m env cfg.plugins cfg.fixed candidate_range cancelAt
  (pre ++ r.1 ++ (if r.2 then [Event.pollStarted] else []), r.2)

/-- The Assignment Store after `scan_gpio`: the method body contains no
write to `self.fixed_pin_sensors`, so the store is unchanged. -/
def scan_gpio_fixed_after (cfg : ScanConfig) : List (Nat × String) := cfg.fixed

/-- Plugin loop of `GPIOApp.scan_pin` (the single-pin "Scan Pin" path):
same marker/`wait_for` logic as the full scan but with no
`async with self.gpio_sem` around the detect call, no "Timeout" marker,
and an early `return` on the first result. -/
def scan_pin_loop (m : List (Nat × Nat)) (env : String → Nat → DetectOutcome)
    (pin : Nat) : List (String × PluginInfo) → List Event × Bool
  | [] => ([], false)
  | (name, p) :: rest =>
    if p.auto_detectable = false then scan_pin_loop m env pin rest
    else
      let disp := get_display_pin m pin
      let pre := [Event.updateSensor disp ("Scan " ++ name) "" "yellow",
                  Event.detectCall name pin]
      match env name pin with
      | .detected st info c => (pre ++ [Event.updateSensor disp st info c], true)
      | _ =>
        let r := scan_pin_loop m env pin rest
        (pre ++ r.1, r.2)

/-- GPIOApp.scan_pin: run the plugin loop; if nothing was found, set the
"-" marker. -/
def scan_pin (m : List (Nat × Nat)) (env : String → Nat → DetectOutcome)
    (pin : Nat) (plugins : List (String × PluginInfo)) : List Event :=
  let r := scan_pin_loop m env pin plugins
  if r.2 then r.1
  else r.1 ++ [Event.updateSensor (get_display_pin m pin) "-" "" "red"]

/-- One item of a poll pass (`for pin, sensor in list(fixed_pin_sensors.items())`):
look the stored sensor string up in the registry; if found, `read` it
(the surrounding try/except turns any failure into a skip); otherwise
only the literal string "I2C" gets a status refresh (written at the raw
pin, not the display pin); any other unresolved string does nothing. -/
def pollItem (m : List (Nat × Nat)) (reg : List (String × PluginInfo))
    (renv : String → Nat → ReadOutcome) (item : Nat × String) : List Event :=
  match alookup reg item.2 with
  | some _ =>
    match renv item.2 item.1 with
    | .ok st info c =>
      [Event.readCall item.2 item.1,
       Event.updateSensor (get_display_pin m item.1) st info c]
    | .noResult => [Event.readCall item.2 item.1]
    | .failure => [Event.readCall item.2 item.1]
  | none =>
    if item.2 = "I2C" then [Event.updateSensor item.1 "I2C" "active" "yellow"]
    else []

/-- One full pass of `GPIOApp.poll_sensors_periodically` over the
Assignment Store. -/
def pollPass (m : List (Nat × Nat)) (reg : List (String × PluginInfo))
    (renv : String → Nat → ReadOutcome) (fixed : List (Nat × String)) : List Event :=
  fixed.flatMap (pollItem m reg renv)

/-- The `while True` poll loop: `fuel` bounds the number of passes being
observed (the loop itself never terminates on its own); cooperative
cancellation is observed at the sleeps between passes (`cancel i` says
whether CancelledError is delivered before pass `i`), upon which the
`except asyncio.CancelledError: return` handler exits cleanly. -/
def pollLoop (m : List (Nat × Nat)) (reg : List (String × PluginInfo))
    (renv : String → Nat → ReadOutcome) (fixed : List (Nat × String)) :
    Nat → (Nat → Bool) → List Event
  | 0, _ => []
  | Nat.succ n, cancel =>
    if cancel 0 then []
    else pollPass m reg renv fixed ++
      pollLoop m reg renv fixed n (fun i => cancel (i + 1))

/-- GPIOApp.on_select_changed: an empty value or an unresolvable row/BCM
pin is ignored; otherwise the selected catalog value string is stored
verbatim as the pin's sensor (`self.fixed_pin_sensors[bcm_pin] = value`). -/
def on_select_changed (fixed : List (Nat × String)) (value : String)
    (bcm_pin : Option Nat) : List (Nat × String) :=
  if value = "" then fixed
  else
    match bcm_pin with
    | none => fixed
    | some pin => dictInsert fixed pin value

/-- The `_PluginCtx` object handed to every plugin call: it has exactly
the two attributes set in `GPIOApp.__init__` — the GPIO module handle and
the shared semaphore.  (plugins/base.py documents a
`role_pin_assignments` attribute, but `_PluginCtx` never defines one.) -/
structure PluginCtx (G S : Type) where
  GPIO : G
  gpio_sem : S

/-! ### Display state derived from a trace (PinTable.update_sensor) -/

/-- PinTable.update_sensor: a write to an unknown display pin is dropped
(`pin_to_row.get` returns None), otherwise the Sensor/Info cells of that
row are overwritten. -/
def update_sensor (rows : List Nat) (disp : List (Nat × (String × String × String)))
    (p : Nat) (v : String × String × String) : List (Nat × (String × String × String)) :=
  if p ∈ rows then dictInsert disp p v else disp

def applyEvent (rows : List Nat) (disp : List (Nat × (String × String × String))) :
    Event → List (Nat × (String × String × String))
  | Event.updateSensor p st info c => update_sensor rows disp p (st, info, c)
  | _ => disp

/-- The Sensor/Info display cells after replaying a trace against a table
with rows `rows` (keyed by display pin). -/
def displayState (rows : List Nat) (evs : List Event) :
    List (Nat × (String × String × String)) :=
  evs.foldl (applyEvent rows) []

/-- The write an event makes to display pin `d`, if any. -/
def writeAt (d : Nat) : Event → Option (String × String × String)
  | Event.updateSensor p st info c => if p = d then some (st, info, c) else none
  | _ => none

/-- The last `update_sensor` write a trace makes to display pin `d`. -/
def lastWrite (d : Nat) : List Event → Option (String × String × String)
  | [] => none
  | e :: evs =>
    match lastWrite d evs with
    | some v => some v
    | none => writeAt d e

/-! ### Semaphore bracketing -/

/-- Semaphore depth after a trace (acquire/release counting). -/
def endDepth : List Event → Nat → Nat
  | [], d => d
  | Event.semAcquire :: evs, d => endDepth evs (d + 1)
  | Event.semRelease :: evs, d => endDepth evs (d - 1)
  | _ :: evs, d => endDepth evs d

/-- Whether every plugin `detect`/`read` call in the trace happens while
the caller holds gpio_sem (depth at least one). -/
def callsGuarded : List Event → Nat → Bool
  | [], _ => true
  | Event.semAcquire :: evs, d => callsGuarded evs (d + 1)
  | Event.semRelease :: evs, d => callsGuarded evs (d - 1)
  | Event.detectCall _ _ :: evs, d => decide (1 ≤ d) && callsGuarded evs d
  | Event.readCall _ _ :: evs, d => decide (1 ≤ d) && callsGuarded evs d
  | _ :: evs, d => callsGuarded evs d

/-! ### Trace lemmas -/

theorem lastWrite_append (d : Nat) (xs ys : List Event) :
    lastWrite d (xs ++ ys) =
      match lastWrite d ys with
      | some v => some v
      | none => lastWrite d xs := by
  induction xs with
  | nil =>
    simp only [List.nil_append]
    cases lastWrite d ys <;> rfl
  | cons e xs ih =>
    rw [List.cons_append, lastWrite, ih, lastWrite]
    cases lastWrite d ys <;> cases lastWrite d xs <;> rfl

theorem lastWrite_eq_none (d : Nat) (evs : List Event)
    (h : ∀ st info c, Event.updateSensor d st info c ∉ evs) :
    lastWrite d evs = none := by
  induction evs with
  | nil => rfl
  | cons e evs ih =>
    have h' : ∀ st info c, Event.updateSensor d st info c ∉ evs :=
      fun st info c hm => h st info c (List.mem_cons_of_mem e hm)
    simp only [lastWrite, ih h']
    cases e with
    | updateSensor p st info c =>
      by_cases hp : p = d
      · subst hp
        exact absurd (List.mem_cons_self _ _) (h st info c)
      · simp [writeAt, hp]
    | semAcquire => rfl
    | semRelease => rfl
    | detectCall a b => rfl
    | readCall a b => rfl
    | pollCancelled => rfl
    | pollStarted => rfl

theorem alookup_foldl_applyEvent (rows : List Nat) (d : Nat) (hd : d ∈ rows)
    (evs : List Event) :
    ∀ init, alookup (evs.foldl (applyEvent rows) init) d =
      match lastWrite d evs with
      | some v => some v
      | none => alookup init d := by
  induction evs with
  | nil => intro init; rfl
  | cons e evs ih =>
    intro init
    rw [List.foldl_cons, ih (applyEvent rows init e)]
    cases hlw : lastWrite d evs with
    | some v => simp [lastWrite, hlw]
    | none =>
      simp only [lastWrite, hlw]
      cases e with
      | updateSensor p st info c =>
        simp only [applyEvent, writeAt, update_sensor]
        by_cases hp : p = d
        · subst hp
          rw [if_pos hd, alookup_dictInsert, if_pos rfl, if_pos rfl]
        · rw [if_neg hp]
          by_cases hr : p ∈ rows
          · rw [if_pos hr, alookup_dictInsert, if_neg hp]
          · rw [if_neg hr]
      | semAcquire => rfl
      | semRelease => rfl
      | detectCall a b => rfl
      | readCall a b => rfl
      | pollCancelled => rfl
      | pollStarted => rfl

theorem alookup_displayState (rows : List Nat) (d : Nat) (hd : d ∈ rows)
    (evs : List Event) :
    alookup (displayState rows evs) d = lastWrite d evs := by
  rw [displayState, alookup_foldl_applyEvent rows d hd evs []]
  cases lastWrite d evs <;> rfl

theorem endDepth_append (xs ys : List Event) (d : Nat) :
    endDepth (xs ++ ys) d = endDepth ys (endDepth xs d) := by
  induction xs generalizing d with
  | nil => rfl
  | cons e xs ih =>
    cases e <;> simp only [List.cons_append, endDepth] <;> exact ih _

theorem callsGuarded_append (xs ys : List Event) (d : Nat) :
    callsGuarded (xs ++ ys) d =
      (callsGuarded xs d && callsGuarded ys (endDepth xs d)) := by
  induction xs generalizing d with
  | nil => simp [callsGuarded, endDepth]
  | cons e xs ih =>
    cases e <;> simp only [List.cons_append, callsGuarded, endDepth, List.append_eq] <;>
      (rw [ih]; try rw [Bool.and_assoc])

/-! ### Shapes of the events each generator can emit -/

theorem scan_gpio_plugins_mem (m : List (Nat × Nat)) (env : String → Nat → DetectOutcome)
    (pin : Nat) (ps : List (String × PluginInfo)) (e : Event)
    (h : e ∈ (scan_gpio_plugins m env pin ps).1) :
    e = Event.semAcquire ∨ e = Event.semRelease ∨
    (∃ n, e = Event.detectCall n pin ∧ n ∈ ps.map Prod.fst) ∨
    (∃ st info c, e = Event.updateSensor (get_display_pin m pin) st info c) := by
  induction ps with
  | nil => cases h
  | cons kv ps ih =>
    obtain ⟨name, p⟩ := kv
    rw [scan_gpio_plugins] at h
    by_cases ha : p.auto_detectable = false
    · rw [if_pos ha] at h
      rcases ih h with h1 | h2 | ⟨n, he, hn⟩ | h4
      · exact Or.inl h1
      · exact Or.inr (Or.inl h2)
      · exact Or.inr (Or.inr (Or.inl ⟨n, he, List.mem_cons_of_mem _ hn⟩))
      · exact Or.inr (Or.inr (Or.inr h4))
    · rw [if_neg ha] at h
      have hpre : e ∈ [Event.updateSensor (get_display_pin m pin) ("Scan " ++ name) "" "yellow",
          Event.semAcquire, Event.detectCall name pin, Event.semRelease] →
          e = Event.semAcquire ∨ e = Event.semRelease ∨
          (∃ n, e = Event.detectCall n pin ∧ n ∈ ((name, p) :: ps).map Prod.fst) ∨
          (∃ st info c, e = Event.updateSensor (get_display_pin m pin) st info c) := by
        intro hx
        simp only [List.mem_cons, List.not_mem_nil, or_false] at hx
        rcases hx with rfl | rfl | rfl | rfl
        · exact Or.inr (Or.inr (Or.inr ⟨_, _, _, rfl⟩))
        · exact Or.inl rfl
        · exact Or.inr (Or.inr (Or.inl ⟨name, rfl, List.mem_cons_self _ _⟩))
        · exact Or.inr (Or.inl rfl)
      have hih : e ∈ (scan_gpio_plugins m env pin ps).1 →
          e = Event.semAcquire ∨ e = Event.semRelease ∨
          (∃ n, e = Event.detectCall n pin ∧ n ∈ ((name, p) :: ps).map Prod.fst) ∨
          (∃ st info c, e = Event.updateSensor (get_display_pin m pin) st info c) := by
        intro hx
        rcases ih hx with h1 | h2 | ⟨n, he2, hn⟩ | h4
        · exact Or.inl h1
        · exact Or.inr (Or.inl h2)
        · exact Or.inr (Or.inr (Or.inl ⟨n, he2, List.mem_cons_of_mem _ hn⟩))
        · exact Or.inr (Or.inr (Or.inr h4))
      cases henv : env name pin with
      | detected st info c =>
        rw [henv] at h
        simp only [List.mem_append] at h
        rcases h with h | h
        · exact hpre h
        · simp only [List.mem_singleton] at h
          subst h
          exact Or.inr (Or.inr (Or.inr ⟨_, _, _, rfl⟩))
      | notFound =>
        rw [henv] at h
        simp only [List.mem_append] at h
        rcases h with h | h
        · exact hpre h
        · exact hih h
      | timeout =>
        rw [henv] at h
        simp only [List.mem_append] at h
        rcases h with (h | h) | h
        · exact hpre h
        · simp only [List.mem_singleton] at h
          subst h
          exact Or.inr (Or.inr (Or.inr ⟨_, _, _, rfl⟩))
        · exact hih h
      | error =>
        rw [henv] at h
        simp only [List.mem_append] at h
        rcases h with h | h
        · exact hpre h
        · exact hih h

theorem scanCandidate_mem (m : List (Nat × Nat)) (env : String → Nat → DetectOutcome)
    (plugins : List (String × PluginInfo)) (pin : Nat) (e : Event)
    (h : e ∈ scanCandidate m env plugins pin) :
    e ∈ (scan_gpio_plugins m env pin plugins).1 ∨
    e = Event.updateSensor (get_display_pin m pin) "-" "" "red" := by
  rw [scanCandidate] at h
  by_cases hfound : (scan_gpio_plugins m env pin plugins).2 = true
  · rw [if_pos hfound] at h
    exact Or.inl h
  · rw [if_neg hfound] at h
    simp only [List.mem_append] at h
    rcases h with h | h
    · exact Or.inl h
    · simp only [List.mem_singleton] at h
      exact Or.inr h

theorem scanPins_mem (m : List (Nat × Nat)) (env : String → Nat → DetectOutcome)
    (plugins : List (String × PluginInfo)) (fixed : List (Nat × String))
    (pins : List Nat) (cancelAt : Option Nat) (e : Event)
    (h : e ∈ (scanPins m env plugins fixed pins cancelAt).1) :
    ∃ q, q ∈ pins ∧ q ∉ BUS_PINS ∧ alookup fixed q = none ∧
      (e ∈ (scan_gpio_plugins m env q plugins).1 ∨
       e = Event.updateSensor (get_display_pin m q) "-" "" "red") := by
  induction pins generalizing cancelAt with
  | nil => cases h
  | cons pin rest ih =>
    simp only [scanPins] at h
    by_cases hbus : pin ∈ BUS_PINS
    · rw [if_pos hbus] at h
      obtain ⟨q, hq, hrest⟩ := ih cancelAt h
      exact ⟨q, List.mem_cons_of_mem _ hq, hrest⟩
    · rw [if_neg hbus] at h
      by_cases hfx : (alookup fixed pin).isSome = true
      · rw [if_pos hfx] at h
        obtain ⟨q, hq, hrest⟩ := ih cancelAt h
        exact ⟨q, List.mem_cons_of_mem _ hq, hrest⟩
      · rw [if_neg hfx] at h
        have hnone : alookup fixed pin = none := by
          cases hx : alookup fixed pin with
          | none => rfl
          | some v => rw [hx] at hfx; exact absurd rfl hfx
        have hcand : ∀ cancelAt2, e ∈ scanCandidate m env plugins pin ++
            (scanPins m env plugins fixed rest cancelAt2).1 →
            ∃ q, q ∈ pin :: rest ∧ q ∉ BUS_PINS ∧ alookup fixed q = none ∧
              (e ∈ (scan_gpio_plugins m env q plugins).1 ∨
               e = Event.updateSensor (get_display_pin m q) "-" "" "red") := by
          intro cancelAt2 hx
          simp only [List.mem_append] at hx
          rcases hx with hx | hx
          · exact ⟨pin, List.mem_cons_self _ _, hbus, hnone,
              scanCandidate_mem m env plugins pin e hx⟩
          · obtain ⟨q, hq, hrest⟩ := ih _ hx
            exact ⟨q, List.mem_cons_of_mem _ hq, hrest⟩
        cases cancelAt with
        | some k =>
          cases k with
          | zero => cases h
          | succ k' => exact hcand (some k') h
        | none => exact hcand none h

theorem scan_pin_loop_mem (m : List (Nat × Nat)) (env : String → Nat → DetectOutcome)
    (pin : Nat) (ps : List (String × PluginInfo)) (e : Event)
    (h : e ∈ (scan_pin_loop m env pin ps).1) :
    (∃ n, e = Event.detectCall n pin) ∨
    (∃ st info c, e = Event.updateSensor (get_display_pin m pin) st info c) := by
  induction ps with
  | nil => cases h
  | cons kv ps ih =>
    obtain ⟨name, p⟩ := kv
    rw [scan_pin_loop] at h
    by_cases ha : p.auto_detectable = false
    · rw [if_pos ha] at h
      exact ih h
    · rw [if_neg ha] at h
      have hpre : e ∈ [Event.updateSensor (get_display_pin m pin) ("Scan " ++ name) "" "yellow",
          Event.detectCall name pin] →
          (∃ n, e = Event.detectCall n pin) ∨
          (∃ st info c, e = Event.updateSensor (get_display_pin m pin) st info c) := by
        intro hx
        simp only [List.mem_cons, List.not_mem_nil, or_false] at hx
        rcases hx with rfl | rfl
        · exact Or.inr ⟨_, _, _, rfl⟩
        · exact Or.inl ⟨name, rfl⟩
      cases henv : env name pin with
      | detected st info c =>
        rw [henv] at h
        simp only [List.mem_append] at h
        rcases h with h | h
        · exact hpre h
        · simp only [List.mem_singleton] at h
          subst h
          exact Or.inr ⟨_, _, _, rfl⟩
      | notFound =>
        rw [henv] at h
        simp only [List.mem_append] at h
        rcases h with h | h
        · exact hpre h
        · exact ih h
      | timeout =>
        rw [henv] at h
        simp only [List.mem_append] at h
        rcases h with h | h
        · exact hpre h
        · exact ih h
      | error =>
        rw [henv] at h
        simp only [List.mem_append] at h
        rcases h with h | h
        · exact hpre h
        · exact ih h

theorem pollItem_mem (m : List (Nat × Nat)) (reg : List (String × PluginInfo))
    (renv : String → Nat → ReadOutcome) (item : Nat × String) (e : Event)
    (h : e ∈ pollItem m reg renv item) :
    ((alookup reg item.2).isSome = true ∧ e = Event.readCall item.2 item.1) ∨
    (∃ st info c, e = Event.updateSensor (get_display_pin m item.1) st info c) ∨
    (item.2 = "I2C" ∧ e = Event.updateSensor item.1 "I2C" "active" "yellow") := by
  rw [pollItem] at h
  cases hreg : alookup reg item.2 with
  | some p =>
    rw [hreg] at h
    cases hr : renv item.2 item.1 with
    | ok st info c =>
      rw [hr] at h
      simp only [List.mem_cons, List.not_mem_nil, or_false] at h
      rcases h with rfl | rfl
      · exact Or.inl ⟨rfl, rfl⟩
      · exact Or.inr (Or.inl ⟨_, _, _, rfl⟩)
    | noResult =>
      rw [hr] at h
      simp only [List.mem_singleton] at h
      subst h
      exact Or.inl ⟨rfl, rfl⟩
    | failure =>
      rw [hr] at h
      simp only [List.mem_singleton] at h
      subst h
      exact Or.inl ⟨rfl, rfl⟩
  | none =>
    rw [hreg] at h
    by_cases hi : item.2 = "I2C"
    · rw [if_pos hi] at h
      simp only [List.mem_singleton] at h
      subst h
      exact Or.inr (Or.inr ⟨hi, rfl⟩)
    · rw [if_neg hi] at h
      cases h

theorem scanPins_none_completes (m : List (Nat × Nat)) (env : String → Nat → DetectOutcome)
    (plugins : List (String × PluginInfo)) (fixed : List (Nat × String)) (pins : List Nat) :
    (scanPins m env plugins fixed pins none).2 = true := by
  induction pins with
  | nil => rfl
  | cons pin rest ih =>
    simp only [scanPins]
    by_cases hbus : pin ∈ BUS_PINS
    · rw [if_pos hbus]; exact ih
    · rw [if_neg hbus]
      by_cases hfx : (alookup fixed pin).isSome = true
      · rw [if_pos hfx]; exact ih
      · rw [if_neg hfx]; exact ih

theorem scan_gpio_none_completes (m : List (Nat × Nat)) (cfg : ScanConfig)
    (env : String → Nat → DetectOutcome) :
    (scan_gpio m cfg env none).2 = true ∧
    Event.pollStarted ∈ (scan_gpio m cfg env none).1 := by
  have hc := scanPins_none_completes m env cfg.plugins cfg.fixed candidate_range
  constructor
  · simp only [scan_gpio]
    exact hc
  · simp [scan_gpio, hc]

/-! ### Semaphore discipline of each call path (C2) -/

theorem scan_gpio_plugins_guarded (m : List (Nat × Nat)) (env : String → Nat → DetectOutcome)
    (pin : Nat) (ps : List (String × PluginInfo)) :
    callsGuarded (scan_gpio_plugins m env pin ps).1 0 = true ∧
    endDepth (scan_gpio_plugins m env pin ps).1 0 = 0 := by
  induction ps with
  | nil => exact ⟨rfl, rfl⟩
  | cons kv ps ih =>
    obtain ⟨name, p⟩ := kv
    by_cases ha : p.auto_detectable = false
    · rw [scan_gpio_plugins, if_pos ha]
      exact ih
    · rw [scan_gpio_plugins, if_neg ha]
      cases henv : env name pin with
      | detected st info c => exact ⟨rfl, rfl⟩
      | notFound => exact ih
      | timeout => exact ih
      | error => exact ih

theorem scanCandidate_guarded (m : List (Nat × Nat)) (env : String → Nat → DetectOutcome)
    (plugins : List (String × PluginInfo)) (pin : Nat) :
    callsGuarded (scanCandidate m env plugins pin) 0 = true ∧
    endDepth (scanCandidate m env plugins pin) 0 = 0 := by
  rw [scanCandidate]
  obtain ⟨h1, h2⟩ := scan_gpio_plugins_guarded m env pin plugins
  by_cases hfound : (scan_gpio_plugins m env pin plugins).2 = true
  · rw [if_pos hfound]
    exact ⟨h1, h2⟩
  · rw [if_neg hfound]
    constructor
    · rw [callsGuarded_append, h1, h2]
      rfl
    · rw [endDepth_append, h2]
      rfl

theorem scanPins_guarded (m : List (Nat × Nat)) (env : String → Nat → DetectOutcome)
    (plugins : List (String × PluginInfo)) (fixed : List (Nat × String))
    (pins : List Nat) (cancelAt : Option Nat) :
    callsGuarded (scanPins m env plugins fixed pins cancelAt).1 0 = true := by
  induction pins generalizing cancelAt with
  | nil => rfl
  | cons pin rest ih =>
    simp only [scanPins]
    by_cases hbus : pin ∈ BUS_PINS
    · rw [if_pos hbus]; exact ih cancelAt
    · rw [if_neg hbus]
      by_cases hfx : (alookup fixed pin).isSome = true
      · rw [if_pos hfx]; exact ih cancelAt
      · rw [if_neg hfx]
        obtain ⟨h1, h2⟩ := scanCandidate_guarded m env plugins pin
        cases cancelAt with
        | some k =>
          cases k with
          | zero => rfl
          | succ k' =>
            show callsGuarded (scanCandidate m env plugins pin ++
              (scanPins m env plugins fixed rest (some k')).1) 0 = true
            rw [callsGuarded_append, h1, h2, ih (some k')]
            rfl
        | none =>
          show callsGuarded (scanCandidate m env plugins pin ++
            (scanPins m env plugins fixed rest none).1) 0 = true
          rw [callsGuarded_append, h1, h2, ih none]
          rfl

/-- C2 (amended): the coordinator holds gpio_sem around every plugin
`detect` call it issues from the full-range scan (each call sits between
the acquire and release of the `async with self.gpio_sem` block), but the
single-pin scan and the poll loop issue their `detect`/`read` calls with
no coordinator-level acquisition at all — their traces contain no
semaphore acquire; serialization there is left to each plugin's own use
of `ctx.gpio_sem`. -/
theorem gpio_sem_usage_by_call_path (m : List (Nat × Nat)) (cfg : ScanConfig)
    (env : String → Nat → DetectOutcome) (cancelAt : Option Nat)
    (pin : Nat) (plugins : List (String × PluginInfo))
    (reg : List (String × PluginInfo)) (renv : String → Nat → ReadOutcome)
    (fixed : List (Nat × String)) :
    callsGuarded (scan_gpio m cfg env cancelAt).1 0 = true ∧
    Event.semAcquire ∉ scan_pin m env pin plugins ∧
    Event.semAcquire ∉ pollPass m reg renv fixed := by
  refine ⟨?_, ?_, ?_⟩
  · rw [scan_gpio]
    have hpost : ∀ (b : Bool) (d : Nat),
        callsGuarded (if b then [Event.pollStarted] else []) d = true := by
      intro b d
      cases b <;> rfl
    cases hpr : cfg.pollRunning
    · show callsGuarded ([] ++
        ((scanPins m env cfg.plugins cfg.fixed candidate_range cancelAt).1 ++
          (if (scanPins m env cfg.plugins cfg.fixed candidate_range cancelAt).2 then
            [Event.pollStarted] else []))) 0 = true
      rw [List.nil_append, callsGuarded_append,
        scanPins_guarded m env cfg.plugins cfg.fixed candidate_range cancelAt,
        hpost, Bool.and_self]
    · show callsGuarded ([Event.pollCancelled] ++
        ((scanPins m env cfg.plugins cfg.fixed candidate_range cancelAt).1 ++
          (if (scanPins m env cfg.plugins cfg.fixed candidate_range cancelAt).2 then
            [Event.pollStarted] else []))) 0 = true
      have e1 : endDepth [Event.pollCancelled] 0 = 0 := rfl
      rw [callsGuarded_append, callsGuarded_append, e1,
        scanPins_guarded m env cfg.plugins cfg.fixed candidate_range cancelAt,
        hpost]
      rfl
  · intro h
    rw [scan_pin] at h
    by_cases hfound : (scan_pin_loop m env pin plugins).2 = true
    · rw [if_pos hfound] at h
      rcases scan_pin_loop_mem m env pin plugins _ h with ⟨n, he⟩ | ⟨st, i, c, he⟩ <;> cases he
    · rw [if_neg hfound] at h
      simp only [List.mem_append, List.mem_singleton] at h
      rcases h with h | h
      · rcases scan_pin_loop_mem m env pin plugins _ h with ⟨n, he⟩ | ⟨st, i, c, he⟩ <;> cases he
      · cases h
  · intro h
    obtain ⟨item, _, hitem⟩ := List.mem_flatMap.mp h
    rcases pollItem_mem m reg renv item _ hitem with ⟨_, he⟩ | ⟨st, i, c, he⟩ | ⟨_, he⟩ <;>
      cases he

/-- C2 counterexample: the claim that every detect/read call is executed
while holding gpio_sem fails for the single-pin scan — on a concrete
registry its trace contains a detect call, yet no call in the trace is
under the semaphore (callsGuarded at depth 0 is false because no acquire
precedes the call). -/
theorem scan_pin_detect_unguarded_counterexample :
    Event.detectCall "DHT22" 5 ∈ scan_pin BCM_TO_PHYS
      (fun _ _ => DetectOutcome.notFound) 5 [("DHT22", ⟨"DHT22", true, [], 0⟩)] ∧
    callsGuarded (scan_pin BCM_TO_PHYS (fun _ _ => DetectOutcome.notFound) 5
      [("DHT22", ⟨"DHT22", true, [], 0⟩)]) 0 = false := by
  decide

/-- C4: during a full-range scan (with or without cancellation), `detect`
is invoked only on pins of the fixed numeric candidate range
`range(2, 28)` that are neither reserved bus-function pins nor present in
the Assignment Store; reserved or assigned pins therefore receive no
plugin call at all. -/
theorem scan_gpio_detect_only_on_candidates (m : List (Nat × Nat)) (cfg : ScanConfig)
    (env : String → Nat → DetectOutcome) (cancelAt : Option Nat)
    (n : String) (q : Nat)
    (h : Event.detectCall n q ∈ (scan_gpio m cfg env cancelAt).1) :
    (2 ≤ q ∧ q < 28) ∧ q ∉ BUS_PINS ∧ alookup cfg.fixed q = none := by
  have h' : Event.detectCall n q ∈
      (scanPins m env cfg.plugins cfg.fixed candidate_range cancelAt).1 := by
    have hsg : (scan_gpio m cfg env cancelAt).1 =
        ((if cfg.pollRunning then [Event.pollCancelled] else []) ++
          (scanPins m env cfg.plugins cfg.fixed candidate_range cancelAt).1) ++
        (if (scanPins m env cfg.plugins cfg.fixed candidate_range cancelAt).2 then
          [Event.pollStarted] else []) := rfl
    rw [hsg, List.mem_append, List.mem_append] at h
    rcases h with (h | h) | h
    · exfalso
      revert h
      cases cfg.pollRunning <;> simp
    · exact h
    · exfalso
      revert h
      by_cases hr2 : (scanPins m env cfg.plugins cfg.fixed candidate_range cancelAt).2 = true
      · rw [if_pos hr2]; simp
      · rw [if_neg hr2]; simp
  obtain ⟨p, hpmem, hbus, hfx, hor⟩ :=
    scanPins_mem m env cfg.plugins cfg.fixed candidate_range cancelAt _ h'
  have hqp : q = p := by
    rcases hor with hblk | he
    · rcases scan_gpio_plugins_mem m env p cfg.plugins _ hblk with
        he | he | ⟨n2, he, _⟩ | ⟨st, i, c, he⟩
      · exact Event.noConfusion he
      · exact Event.noConfusion he
      · injection he
      · exact Event.noConfusion he
    · exact Event.noConfusion he
  have hrange : ∀ x ∈ candidate_range, 2 ≤ x ∧ x < 28 := by decide
  rw [hqp]
  exact ⟨hrange p hpmem, hbus, hfx⟩

/-- Witness for C4 at a concrete scan: the trace of a full scan with one
auto-detectable plugin contains a detect call on pin 4, and pin 4 is in
range, unreserved and unassigned. -/
theorem scan_gpio_detect_only_on_candidates_witness :
    (2 ≤ 4 ∧ 4 < 28) ∧ 4 ∉ BUS_PINS ∧ alookup ([] : List (Nat × String)) 4 = none :=
  scan_gpio_detect_only_on_candidates BCM_TO_PHYS
    ⟨[("DHT22", ⟨"DHT22", true, [], 0⟩)], [], false⟩
    (fun _ _ => DetectOutcome.notFound) none "DHT22" 4 (by decide)

/-! ### Cancellation of the full-range scan (C3) -/

theorem scanPins_cancelled_is_front (m : List (Nat × Nat)) (env : String → Nat → DetectOutcome)
    (plugins : List (String × PluginInfo)) (fixed : List (Nat × String))
    (pins : List Nat) (k : Nat) :
    ∃ ts, (scanPins m env plugins fixed pins none).1 =
      (scanPins m env plugins fixed pins (some k)).1 ++ ts := by
  induction pins generalizing k with
  | nil => exact ⟨[], rfl⟩
  | cons pin rest ih =>
    simp only [scanPins]
    by_cases hbus : pin ∈ BUS_PINS
    · rw [if_pos hbus, if_pos hbus]
      exact ih k
    · rw [if_neg hbus, if_neg hbus]
      by_cases hfx : (alookup fixed pin).isSome = true
      · rw [if_pos hfx, if_pos hfx]
        exact ih k
      · rw [if_neg hfx, if_neg hfx]
        cases k with
        | zero =>
          exact ⟨scanCandidate m env plugins pin ++
            (scanPins m env plugins fixed rest none).1, (List.nil_append _).symm⟩
        | succ k' =>
          obtain ⟨ts, hts⟩ := ih k'
          refine ⟨ts, ?_⟩
          show scanCandidate m env plugins pin ++ (scanPins m env plugins fixed rest none).1 =
            (scanCandidate m env plugins pin ++
              (scanPins m env plugins fixed rest (some k')).1) ++ ts
          rw [hts, List.append_assoc]

theorem pollStarted_not_in_scanPins (m : List (Nat × Nat)) (env : String → Nat → DetectOutcome)
    (plugins : List (String × PluginInfo)) (fixed : List (Nat × String))
    (pins : List Nat) (cancelAt : Option Nat) :
    Event.pollStarted ∉ (scanPins m env plugins fixed pins cancelAt).1 := by
  intro h
  obtain ⟨q, _, _, _, hor⟩ := scanPins_mem m env plugins fixed pins cancelAt _ h
  rcases hor with hblk | he
  · rcases scan_gpio_plugins_mem m env q plugins _ hblk with
      he | he | ⟨n2, he, _⟩ | ⟨st, i, c, he⟩ <;> exact Event.noConfusion he
  · exact Event.noConfusion he

/-- C3 (amended): the full-range scan cancels a running poll task at its
start (the cancel event leads every trace), and restarts the poll loop on
normal completion only.  When the scan is cancelled mid-iteration the
CancelledError handler returns before the restart line, so no poll task
is started; the cancelled run's pin-loop trace is an initial segment of
the completed run's, so every per-pin result written before the
cancellation point is intact (it is exactly what an uncancelled run
writes). -/
theorem scan_gpio_pause_restart (m : List (Nat × Nat)) (cfg : ScanConfig)
    (env : String → Nat → DetectOutcome) :
    (cfg.pollRunning = true → ∀ cancelAt, ∃ ts,
      (scan_gpio m cfg env cancelAt).1 = Event.pollCancelled :: ts) ∧
    ((scan_gpio m cfg env none).2 = true ∧
      Event.pollStarted ∈ (scan_gpio m cfg env none).1) ∧
    (∀ k, (scanPins m env cfg.plugins cfg.fixed candidate_range (some k)).2 = false →
      Event.pollStarted ∉ (scan_gpio m cfg env (some k)).1) ∧
    (∀ k, ∃ ts, (scanPins m env cfg.plugins cfg.fixed candidate_range none).1 =
      (scanPins m env cfg.plugins cfg.fixed candidate_range (some k)).1 ++ ts) := by
  refine ⟨?_, scan_gpio_none_completes m cfg env, ?_, ?_⟩
  · intro hpr cancelAt
    refine ⟨(scanPins m env cfg.plugins cfg.fixed candidate_range cancelAt).1 ++
      (if (scanPins m env cfg.plugins cfg.fixed candidate_range cancelAt).2 then
        [Event.pollStarted] else []), ?_⟩
    show ((if cfg.pollRunning then [Event.pollCancelled] else []) ++
        (scanPins m env cfg.plugins cfg.fixed candidate_range cancelAt).1) ++
      (if (scanPins m env cfg.plugins cfg.fixed candidate_range cancelAt).2 then
        [Event.pollStarted] else []) = _
    rw [hpr]
    simp
  · intro k hk h
    have hsg : (scan_gpio m cfg env (some k)).1 =
        ((if cfg.pollRunning then [Event.pollCancelled] else []) ++
          (scanPins m env cfg.plugins cfg.fixed candidate_range (some k)).1) ++
        (if (scanPins m env cfg.plugins cfg.fixed candidate_range (some k)).2 then
          [Event.pollStarted] else []) := rfl
    rw [hsg, hk, List.mem_append, List.mem_append] at h
    rcases h with (h | h) | h
    · revert h
      cases cfg.pollRunning <;> simp
    · exact pollStarted_not_in_scanPins m env cfg.plugins cfg.fixed candidate_range (some k) h
    · simp at h
  · intro k
    exact scanPins_cancelled_is_front m env cfg.plugins cfg.fixed candidate_range k

/-- C3 counterexample: with a running poll task, cancelling the scan at
its second candidate pin leaves the first pin's written result in the
trace but restarts no poll task — the poll loop is not left running, so
the claim's "restarts it in both terminating cases" is false on the code. -/
theorem scan_gpio_cancel_no_poll_restart_counterexample :
    Event.updateSensor (get_display_pin BCM_TO_PHYS 4) "-" "" "red" ∈
      (scan_gpio BCM_TO_PHYS ⟨[("DHT22", ⟨"DHT22", true, [], 0⟩)], [], true⟩
        (fun _ _ => DetectOutcome.notFound) (some 1)).1 ∧
    Event.pollStarted ∉
      (scan_gpio BCM_TO_PHYS ⟨[("DHT22", ⟨"DHT22", true, [], 0⟩)], [], true⟩
        (fun _ _ => DetectOutcome.notFound) (some 1)).1 := by
  decide

/-- Witness for C3 at a concrete configuration: a poll-cancel event leads
the trace, a cancelled run restarts no poll task, and its pin-loop trace
is a front segment of the completed run's. -/
theorem scan_gpio_pause_restart_witness :
    (∃ ts, (scan_gpio BCM_TO_PHYS ⟨[("DHT22", ⟨"DHT22", true, [], 0⟩)], [], true⟩
      (fun _ _ => DetectOutcome.notFound) (some 1)).1 = Event.pollCancelled :: ts) ∧
    Event.pollStarted ∉
      (scan_gpio BCM_TO_PHYS ⟨[("DHT22", ⟨"DHT22", true, [], 0⟩)], [], true⟩
        (fun _ _ => DetectOutcome.notFound) (some 1)).1 := by
  have h := scan_gpio_pause_restart BCM_TO_PHYS
    ⟨[("DHT22", ⟨"DHT22", true, [], 0⟩)], [], true⟩ (fun _ _ => DetectOutcome.notFound)
  exact ⟨h.1 rfl (some 1), h.2.2.1 1 (by decide)⟩

/-- Witness for C2 at concrete configurations: a full scan's trace is
fully guarded, while concrete single-pin-scan and poll-pass traces
contain no semaphore acquisition. -/
theorem gpio_sem_usage_by_call_path_witness :
    callsGuarded (scan_gpio BCM_TO_PHYS ⟨[("DHT22", ⟨"DHT22", true, [], 0⟩)], [], false⟩
      (fun _ _ => DetectOutcome.notFound) none).1 0 = true ∧
    Event.semAcquire ∉ scan_pin BCM_TO_PHYS (fun _ _ => DetectOutcome.notFound) 5
      [("DHT22", ⟨"DHT22", true, [], 0⟩)] ∧
    Event.semAcquire ∉ pollPass BCM_TO_PHYS [("DHT22", ⟨"DHT22", true, [], 0⟩)]
      (fun _ _ => ReadOutcome.ok "DHT22" "20.5C / 44%" "green") [(17, "DHT22")] :=
  gpio_sem_usage_by_call_path BCM_TO_PHYS ⟨[("DHT22", ⟨"DHT22", true, [], 0⟩)], [], false⟩
    (fun _ _ => DetectOutcome.notFound) none 5 [("DHT22", ⟨"DHT22", true, [], 0⟩)]
    [("DHT22", ⟨"DHT22", true, [], 0⟩)] (fun _ _ => ReadOutcome.ok "DHT22" "20.5C / 44%" "green")
    [(17, "DHT22")]

/-! ### First-match behaviour of the full-range scan (C1) -/

theorem scan_gpio_plugins_first_hit (m : List (Nat × Nat)) (env : String → Nat → DetectOutcome)
    (pin : Nat) (rs : List (String × PluginInfo)) (name : String) (p : PluginInfo)
    (hp : p.auto_detectable = true)
    (st info c : String) (henv : env name pin = DetectOutcome.detected st info c) :
    ∀ qs : List (String × PluginInfo),
      (∀ kv ∈ qs, kv.2.auto_detectable = true → (env kv.1 pin).isHit = false) →
      (scan_gpio_plugins m env pin (qs ++ (name, p) :: rs)).2 = true ∧
      lastWrite (get_display_pin m pin)
        (scan_gpio_plugins m env pin (qs ++ (name, p) :: rs)).1 = some (st, info, c) ∧
      ∀ n' q', Event.detectCall n' q' ∈ (scan_gpio_plugins m env pin (qs ++ (name, p) :: rs)).1 →
        n' ∈ qs.map Prod.fst ++ [name] := by
  intro qs
  induction qs with
  | nil =>
    intro _
    have ha : ¬(p.auto_detectable = false) := by rw [hp]; simp
    rw [List.nil_append, scan_gpio_plugins, if_neg ha, henv]
    refine ⟨rfl, ?_, ?_⟩
    · simp [lastWrite, writeAt]
    · intro n' q' hmem
      simp only [List.mem_append, List.mem_cons, List.not_mem_nil, or_false] at hmem
      rcases hmem with (h | h | h | h) | h
      · exact Event.noConfusion h
      · exact Event.noConfusion h
      · injection h with h1 h2
        rw [h1]
        exact List.mem_singleton.mpr rfl
      · exact Event.noConfusion h
      · exact Event.noConfusion h
  | cons kv qs ih =>
    intro hq
    obtain ⟨kname, kp⟩ := kv
    have hq' : ∀ kv2 ∈ qs, kv2.2.auto_detectable = true → (env kv2.1 pin).isHit = false :=
      fun kv2 hkv2 => hq kv2 (List.mem_cons_of_mem _ hkv2)
    obtain ⟨ih1, ih2, ih3⟩ := ih hq'
    rw [List.cons_append, scan_gpio_plugins]
    by_cases ha : kp.auto_detectable = false
    · rw [if_pos ha]
      refine ⟨ih1, ih2, ?_⟩
      intro n' q' hmem
      exact List.mem_cons_of_mem _ (ih3 n' q' hmem)
    · have hauto : kp.auto_detectable = true := by
        cases hx : kp.auto_detectable
        · exact absurd hx ha
        · rfl
      have hhit := hq (kname, kp) (List.mem_cons_self _ _) hauto
      rw [if_neg ha]
      cases henv2 : env kname pin with
      | detected st2 i2 c2 =>
        rw [henv2] at hhit
        exact absurd hhit (by simp [DetectOutcome.isHit])
      | notFound =>
        refine ⟨ih1, ?_, ?_⟩
        · show lastWrite (get_display_pin m pin)
            ([Event.updateSensor (get_display_pin m pin) ("Scan " ++ kname) "" "yellow",
              Event.semAcquire, Event.detectCall kname pin, Event.semRelease] ++
              (scan_gpio_plugins m env pin (qs ++ (name, p) :: rs)).1) = some (st, info, c)
          rw [lastWrite_append, ih2]
        · intro n' q' hmem
          simp only [List.mem_append, List.mem_cons, List.not_mem_nil, or_false] at hmem
          rcases hmem with (h | h | h | h) | h
          · exact Event.noConfusion h
          · exact Event.noConfusion h
          · injection h with h1 h2
            rw [h1]
            exact List.mem_cons_self _ _
          · exact Event.noConfusion h
          · exact List.mem_cons_of_mem _ (ih3 n' q' h)
      | timeout =>
        refine ⟨ih1, ?_, ?_⟩
        · show lastWrite (get_display_pin m pin)
            (([Event.updateSensor (get_display_pin m pin) ("Scan " ++ kname) "" "yellow",
              Event.semAcquire, Event.detectCall kname pin, Event.semRelease] ++
              [Event.updateSensor (get_display_pin m pin) ("Timeout " ++ kname) "" "red"]) ++
              (scan_gpio_plugins m env pin (qs ++ (name, p) :: rs)).1) = some (st, info, c)
          rw [lastWrite_append, ih2]
        · intro n' q' hmem
          simp only [List.mem_append, List.mem_cons, List.not_mem_nil, or_false] at hmem
          rcases hmem with ((h | h | h | h) | h) | h
          · exact Event.noConfusion h
          · exact Event.noConfusion h
          · injection h with h1 h2
            rw [h1]
            exact List.mem_cons_self _ _
          · exact Event.noConfusion h
          · exact Event.noConfusion h
          · exact List.mem_cons_of_mem _ (ih3 n' q' h)
      | error =>
        refine ⟨ih1, ?_, ?_⟩
        · show lastWrite (get_display_pin m pin)
            ([Event.updateSensor (get_display_pin m pin) ("Scan " ++ kname) "" "yellow",
              Event.semAcquire, Event.detectCall kname pin, Event.semRelease] ++
              (scan_gpio_plugins m env pin (qs ++ (name, p) :: rs)).1) = some (st, info, c)
          rw [lastWrite_append, ih2]
        · intro n' q' hmem
          simp only [List.mem_append, List.mem_cons, List.not_mem_nil, or_false] at hmem
          rcases hmem with (h | h | h | h) | h
          · exact Event.noConfusion h
          · exact Event.noConfusion h
          · injection h with h1 h2
            rw [h1]
            exact List.mem_cons_self _ _
          · exact Event.noConfusion h
          · exact List.mem_cons_of_mem _ (ih3 n' q' h)

theorem scanPins_lastWrite (m : List (Nat × Nat)) (env : String → Nat → DetectOutcome)
    (plugins : List (String × PluginInfo)) (fixed : List (Nat × String))
    (v : String × String × String) (pins : List Nat) (pin : Nat)
    (hnd : pins.Nodup) (hmem : pin ∈ pins)
    (hbus : pin ∉ BUS_PINS) (hfx : alookup fixed pin = none)
    (hys : ∀ q ∈ pins, q ≠ pin → get_display_pin m q ≠ get_display_pin m pin)
    (hfound : (scan_gpio_plugins m env pin plugins).2 = true)
    (hlast : lastWrite (get_display_pin m pin) (scan_gpio_plugins m env pin plugins).1
      = some v) :
    lastWrite (get_display_pin m pin) (scanPins m env plugins fixed pins none).1 = some v := by
  induction pins with
  | nil => cases hmem
  | cons q rest ih =>
    obtain ⟨hnd1, hnd2⟩ := List.nodup_cons.mp hnd
    have hys' : ∀ q2 ∈ rest, q2 ≠ pin → get_display_pin m q2 ≠ get_display_pin m pin :=
      fun q2 hq2 => hys q2 (List.mem_cons_of_mem _ hq2)
    simp only [scanPins]
    by_cases hqb : q ∈ BUS_PINS
    · rw [if_pos hqb]
      rcases List.mem_cons.mp hmem with rfl | hm
      · exact absurd hqb hbus
      · exact ih hnd2 hm hys'
    · rw [if_neg hqb]
      by_cases hqf : (alookup fixed q).isSome = true
      · rw [if_pos hqf]
        rcases List.mem_cons.mp hmem with rfl | hm
        · rw [hfx] at hqf
          exact absurd hqf (by simp)
        · exact ih hnd2 hm hys'
      · rw [if_neg hqf]
        show lastWrite (get_display_pin m pin)
          (scanCandidate m env plugins q ++ (scanPins m env plugins fixed rest none).1)
          = some v
        rw [lastWrite_append]
        rcases List.mem_cons.mp hmem with rfl | hm
        · have hrec : lastWrite (get_display_pin m pin)
              (scanPins m env plugins fixed rest none).1 = none := by
            apply lastWrite_eq_none
            intro st2 i2 c2 hmem2
            obtain ⟨q2, hq2mem, _, _, hor⟩ :=
              scanPins_mem m env plugins fixed rest none _ hmem2
            have hq2ne : q2 ≠ pin := fun he => hnd1 (he ▸ hq2mem)
            have hne := hys' q2 hq2mem hq2ne
            rcases hor with hblk | he2
            · rcases scan_gpio_plugins_mem m env q2 plugins _ hblk with
                he2 | he2 | ⟨n2, he2, _⟩ | ⟨st3, i3, c3, he2⟩
              · exact Event.noConfusion he2
              · exact Event.noConfusion he2
              · exact Event.noConfusion he2
              · injection he2 with hd _
                exact hne hd.symm
            · injection he2 with hd _
              exact hne hd.symm
          rw [hrec]
          show lastWrite (get_display_pin m pin) (scanCandidate m env plugins pin) = some v
          rw [scanCandidate, if_pos hfound]
          exact hlast
        · have hq2 := ih hnd2 hm hys'
          rw [hq2]

theorem scanPins_detect_names (m : List (Nat × Nat)) (env : String → Nat → DetectOutcome)
    (plugins : List (String × PluginInfo)) (fixed : List (Nat × String))
    (pins : List Nat) (cancelAt : Option Nat) (pin : Nat) (P : String → Prop)
    (hblock : ∀ n2, Event.detectCall n2 pin ∈ (scan_gpio_plugins m env pin plugins).1 → P n2)
    (n' : String) (h : Event.detectCall n' pin ∈ (scanPins m env plugins fixed pins cancelAt).1) :
    P n' := by
  obtain ⟨q, _, _, _, hor⟩ := scanPins_mem m env plugins fixed pins cancelAt _ h
  rcases hor with hblk | he
  · rcases scan_gpio_plugins_mem m env q plugins _ hblk with
      he | he | ⟨n2, he, _⟩ | ⟨st, i, c, he⟩
    · exact Event.noConfusion he
    · exact Event.noConfusion he
    · have h2 : pin = q := by injection he
      subst h2
      exact hblock n' hblk
    · exact Event.noConfusion he
  · exact Event.noConfusion he

/-- C1 (amended): during a full-range scan, on the first auto-detectable
plugin whose detect returns a result for a candidate pin, the scan writes
that result (sensorType, info) to the pin's display state (it is the
final write to that row) and invokes no further plugin's detect for that
pin — but it records nothing in the Assignment Store: `scan_gpio`
contains no write to `fixed_pin_sensors`, which is returned unchanged. -/
theorem scan_gpio_first_detection (m : List (Nat × Nat)) (cfg : ScanConfig)
    (env : String → Nat → DetectOutcome)
    (qs rs : List (String × PluginInfo)) (name : String) (p : PluginInfo)
    (pin : Nat) (st info c : String)
    (hplugins : cfg.plugins = qs ++ (name, p) :: rs)
    (hq : ∀ kv ∈ qs, kv.2.auto_detectable = true → (env kv.1 pin).isHit = false)
    (hp : p.auto_detectable = true)
    (henv : env name pin = DetectOutcome.detected st info c)
    (hpin : pin ∈ candidate_range) (hbus : pin ∉ BUS_PINS)
    (hfx : alookup cfg.fixed pin = none)
    (hdisp : ∀ q ∈ candidate_range, q ≠ pin →
      get_display_pin m q ≠ get_display_pin m pin) :
    (∀ rows, get_display_pin m pin ∈ rows →
      alookup (displayState rows (scan_gpio m cfg env none).1) (get_display_pin m pin)
        = some (st, info, c)) ∧
    (∀ n', Event.detectCall n' pin ∈ (scan_gpio m cfg env none).1 →
      n' ∈ qs.map Prod.fst ++ [name]) ∧
    scan_gpio_fixed_after cfg = cfg.fixed := by
  obtain ⟨hfound, hlastB, hnames⟩ :=
    scan_gpio_plugins_first_hit m env pin rs name p hp st info c henv qs hq
  rw [← hplugins] at hfound hlastB hnames
  have hndc : candidate_range.Nodup := by decide
  have hS := scanPins_lastWrite m env cfg.plugins cfg.fixed (st, info, c)
    candidate_range pin hndc hpin hbus hfx hdisp hfound hlastB
  have htrace : (scan_gpio m cfg env none).1 =
      ((if cfg.pollRunning then [Event.pollCancelled] else []) ++
        (scanPins m env cfg.plugins cfg.fixed candidate_range none).1) ++
      (if (scanPins m env cfg.plugins cfg.fixed candidate_range none).2 then
        [Event.pollStarted] else []) := rfl
  refine ⟨?_, ?_, rfl⟩
  · intro rows hrows
    rw [alookup_displayState rows _ hrows, htrace, lastWrite_append, lastWrite_append]
    have hpost : lastWrite (get_display_pin m pin)
        (if (scanPins m env cfg.plugins cfg.fixed candidate_range none).2 then
          [Event.pollStarted] else []) = none := by
      rw [scanPins_none_completes]
      rfl
    rw [hpost, hS]
  · intro n' h
    rw [htrace, List.mem_append, List.mem_append] at h
    rcases h with (h | h) | h
    · exfalso
      revert h
      cases cfg.pollRunning <;> simp
    · exact scanPins_detect_names m env cfg.plugins cfg.fixed candidate_range none pin
        (fun n2 => n2 ∈ qs.map Prod.fst ++ [name]) (fun n2 hm => hnames n2 pin hm) n' h
    · exfalso
      revert h
      rw [scanPins_none_completes]
      simp

/-- Witness for C1: with a single auto-detectable plugin whose detect
hits on BCM pin 4, the scan's final display write for the pin's row
(physical pin 7) is the detection result, the only detect call for pin 4
is that plugin's, and the Assignment Store is unchanged (empty). -/
theorem scan_gpio_first_detection_witness :
    alookup (displayState [7]
      (scan_gpio BCM_TO_PHYS ⟨[("DHT22", ⟨"DHT22", true, [], 0⟩)], [], false⟩
        (fun _ q => if q = 4 then DetectOutcome.detected "DHT22" "21.3C / 45.0%" "green"
          else DetectOutcome.notFound) none).1) 7 =
      some ("DHT22", "21.3C / 45.0%", "green") ∧
    scan_gpio_fixed_after ⟨[("DHT22", ⟨"DHT22", true, [], 0⟩)], [], false⟩ = [] := by
  have h := scan_gpio_first_detection BCM_TO_PHYS
    ⟨[("DHT22", ⟨"DHT22", true, [], 0⟩)], [], false⟩
    (fun _ q => if q = 4 then DetectOutcome.detected "DHT22" "21.3C / 45.0%" "green"
      else DetectOutcome.notFound)
    [] [] "DHT22" ⟨"DHT22", true, [], 0⟩ 4 "DHT22" "21.3C / 45.0%" "green"
    rfl (by intro kv hkv; cases hkv) rfl (by decide) (by decide) (by decide) (by decide)
    (by decide)
  exact ⟨h.1 [7] (by decide), h.2.2⟩

/-- C1 counterexample: the claim's Assignment Store clause fails — after
a completed scan in which a plugin detected on pin 4 (the result was
written to the pin's display row, physical pin 7), `fixed_pin_sensors`
still has no entry for pin 4, because `scan_gpio` never writes to it. -/
theorem scan_gpio_no_assignment_recorded_counterexample :
    Event.updateSensor 7 "DHT22" "ok" "green" ∈
      (scan_gpio BCM_TO_PHYS ⟨[("DHT22", ⟨"DHT22", true, [], 0⟩)], [], false⟩
        (fun _ q => if q = 4 then DetectOutcome.detected "DHT22" "ok" "green"
          else DetectOutcome.notFound) none).1 ∧
    alookup (scan_gpio_fixed_after
      ⟨[("DHT22", ⟨"DHT22", true, [], 0⟩)], [], false⟩) 4 = none := by
  decide

/-! ### Timeout handling during the full-range scan (C6) -/

theorem scan_gpio_plugins_reach (m : List (Nat × Nat)) (env : String → Nat → DetectOutcome)
    (pin : Nat) (rs : List (String × PluginInfo)) (name : String) (p : PluginInfo)
    (hp : p.auto_detectable = true) :
    ∀ qs, (∀ kv ∈ qs, kv.2.auto_detectable = true → (env kv.1 pin).isHit = false) →
      Event.detectCall name pin ∈ (scan_gpio_plugins m env pin (qs ++ (name, p) :: rs)).1 ∧
      (env name pin = DetectOutcome.timeout →
        Event.updateSensor (get_display_pin m pin) ("Timeout " ++ name) "" "red" ∈
          (scan_gpio_plugins m env pin (qs ++ (name, p) :: rs)).1) := by
  intro qs
  induction qs with
  | nil =>
    intro _
    have ha : ¬(p.auto_detectable = false) := by rw [hp]; simp
    rw [List.nil_append, scan_gpio_plugins, if_neg ha]
    cases henv : env name pin with
    | detected st i c =>
      refine ⟨List.mem_append_left _ (by simp), ?_⟩
      intro ht
      exact DetectOutcome.noConfusion ht
    | notFound =>
      refine ⟨List.mem_append_left _ (by simp), ?_⟩
      intro ht
      exact DetectOutcome.noConfusion ht
    | timeout =>
      refine ⟨?_, fun _ => ?_⟩
      · exact List.mem_append_left _ (List.mem_append_left _ (by simp))
      · exact List.mem_append_left _ (List.mem_append_right _ (by simp))
    | error =>
      refine ⟨List.mem_append_left _ (by simp), ?_⟩
      intro ht
      exact DetectOutcome.noConfusion ht
  | cons kv qs ih =>
    intro hq
    obtain ⟨kname, kp⟩ := kv
    have hq' : ∀ kv2 ∈ qs, kv2.2.auto_detectable = true → (env kv2.1 pin).isHit = false :=
      fun kv2 hkv2 => hq kv2 (List.mem_cons_of_mem _ hkv2)
    obtain ⟨ih1, ih2⟩ := ih hq'
    rw [List.cons_append, scan_gpio_plugins]
    by_cases ha : kp.auto_detectable = false
    · rw [if_pos ha]
      exact ⟨ih1, ih2⟩
    · have hauto : kp.auto_detectable = true := by
        cases hx : kp.auto_detectable
        · exact absurd hx ha
        · rfl
      have hhit := hq (kname, kp) (List.mem_cons_self _ _) hauto
      rw [if_neg ha]
      cases henv2 : env kname pin with
      | detected st2 i2 c2 =>
        rw [henv2] at hhit
        exact absurd hhit (by simp [DetectOutcome.isHit])
      | notFound =>
        exact ⟨List.mem_append_right _ ih1, fun ht => List.mem_append_right _ (ih2 ht)⟩
      | timeout =>
        refine ⟨?_, fun ht => ?_⟩
        · exact List.mem_append_right _ ih1
        · exact List.mem_append_right _ (ih2 ht)
      | error =>
        exact ⟨List.mem_append_right _ ih1, fun ht => List.mem_append_right _ (ih2 ht)⟩

theorem scanPins_lift_block (m : List (Nat × Nat)) (env : String → Nat → DetectOutcome)
    (plugins : List (String × PluginInfo)) (fixed : List (Nat × String))
    (pins : List Nat) (pin : Nat) (e : Event)
    (hmem : pin ∈ pins) (hbus : pin ∉ BUS_PINS) (hfx : alookup fixed pin = none)
    (h : e ∈ (scan_gpio_plugins m env pin plugins).1) :
    e ∈ (scanPins m env plugins fixed pins none).1 := by
  induction pins with
  | nil => cases hmem
  | cons q rest ih =>
    simp only [scanPins]
    by_cases hqb : q ∈ BUS_PINS
    · rw [if_pos hqb]
      rcases List.mem_cons.mp hmem with rfl | hm
      · exact absurd hqb hbus
      · exact ih hm
    · rw [if_neg hqb]
      by_cases hqf : (alookup fixed q).isSome = true
      · rw [if_pos hqf]
        rcases List.mem_cons.mp hmem with rfl | hm
        · rw [hfx] at hqf
          exact absurd hqf (by simp)
        · exact ih hm
      · rw [if_neg hqf]
        show e ∈ scanCandidate m env plugins q ++ (scanPins m env plugins fixed rest none).1
        rcases List.mem_cons.mp hmem with rfl | hm
        · refine List.mem_append_left _ ?_
          rw [scanCandidate]
          by_cases hfound : (scan_gpio_plugins m env pin plugins).2 = true
          · rw [if_pos hfound]
            exact h
          · rw [if_neg hfound]
            exact List.mem_append_left _ h
        · exact List.mem_append_right _ (ih hm)

theorem scan_gpio_lift (m : List (Nat × Nat)) (cfg : ScanConfig)
    (env : String → Nat → DetectOutcome) (cancelAt : Option Nat) (e : Event)
    (h : e ∈ (scanPins m env cfg.plugins cfg.fixed candidate_range cancelAt).1) :
    e ∈ (scan_gpio m cfg env cancelAt).1 := by
  have htrace : (scan_gpio m cfg env cancelAt).1 =
      ((if cfg.pollRunning then [Event.pollCancelled] else []) ++
        (scanPins m env cfg.plugins cfg.fixed candidate_range cancelAt).1) ++
      (if (scanPins m env cfg.plugins cfg.fixed candidate_range cancelAt).2 then
        [Event.pollStarted] else []) := rfl
  rw [htrace]
  exact List.mem_append_left _ (List.mem_append_right _ h)

/-- C6: when a plugin's detect times out during the full-range scan, the
pin is marked with the transient "Timeout {plugin}" indicator, the scan
proceeds to the next auto-detectable plugin for that pin (its detect is
invoked), and the scan still runs to completion and restarts the poll
task — the timeout is never fatal. -/
theorem scan_gpio_timeout_not_fatal (m : List (Nat × Nat)) (cfg : ScanConfig)
    (env : String → Nat → DetectOutcome)
    (qs rs : List (String × PluginInfo)) (name : String) (p : PluginInfo) (pin : Nat)
    (hplugins : cfg.plugins = qs ++ (name, p) :: rs)
    (hq : ∀ kv ∈ qs, kv.2.auto_detectable = true → (env kv.1 pin).isHit = false)
    (hp : p.auto_detectable = true)
    (henv : env name pin = DetectOutcome.timeout)
    (hpin : pin ∈ candidate_range) (hbus : pin ∉ BUS_PINS)
    (hfx : alookup cfg.fixed pin = none) :
    Event.updateSensor (get_display_pin m pin) ("Timeout " ++ name) "" "red" ∈
      (scan_gpio m cfg env none).1 ∧
    (∀ qs2 rs2 (name2 : String) (p2 : PluginInfo), rs = qs2 ++ (name2, p2) :: rs2 →
      (∀ kv ∈ qs2, kv.2.auto_detectable = true → (env kv.1 pin).isHit = false) →
      p2.auto_detectable = true →
      Event.detectCall name2 pin ∈ (scan_gpio m cfg env none).1) ∧
    ((scan_gpio m cfg env none).2 = true ∧
      Event.pollStarted ∈ (scan_gpio m cfg env none).1) := by
  refine ⟨?_, ?_, scan_gpio_none_completes m cfg env⟩
  · have hb := (scan_gpio_plugins_reach m env pin rs name p hp qs hq).2 henv
    rw [← hplugins] at hb
    exact scan_gpio_lift m cfg env none _
      (scanPins_lift_block m env cfg.plugins cfg.fixed candidate_range pin _ hpin hbus hfx hb)
  · intro qs2 rs2 name2 p2 hrs hq2 hp2
    have hplugins2 : cfg.plugins = (qs ++ (name, p) :: qs2) ++ (name2, p2) :: rs2 := by
      rw [hplugins, hrs, List.append_assoc, List.cons_append]
    have hqall : ∀ kv ∈ qs ++ (name, p) :: qs2,
        kv.2.auto_detectable = true → (env kv.1 pin).isHit = false := by
      intro kv hkv hkva
      rcases List.mem_append.mp hkv with hkv | hkv
      · exact hq kv hkv hkva
      · rcases List.mem_cons.mp hkv with rfl | hkv
        · rw [henv]
          rfl
        · exact hq2 kv hkv hkva
    have hb := (scan_gpio_plugins_reach m env pin rs2 name2 p2 hp2
      (qs ++ (name, p) :: qs2) hqall).1
    rw [← hplugins2] at hb
    exact scan_gpio_lift m cfg env none _
      (scanPins_lift_block m env cfg.plugins cfg.fixed candidate_range pin _ hpin hbus hfx hb)

/-- Witness for C6: plugin "A" times out on pin 4, the trace contains the
"Timeout A" marker, still invokes plugin "B"'s detect on pin 4, and the
scan completes and restarts the poll task. -/
theorem scan_gpio_timeout_not_fatal_witness :
    Event.updateSensor 7 "Timeout A" "" "red" ∈
      (scan_gpio BCM_TO_PHYS
        ⟨[("A", ⟨"A", true, [], 0⟩), ("B", ⟨"B", true, [], 1⟩)], [], false⟩
        (fun n q => if n = "A" ∧ q = 4 then DetectOutcome.timeout
          else DetectOutcome.notFound) none).1 ∧
    Event.detectCall "B" 4 ∈
      (scan_gpio BCM_TO_PHYS
        ⟨[("A", ⟨"A", true, [], 0⟩), ("B", ⟨"B", true, [], 1⟩)], [], false⟩
        (fun n q => if n = "A" ∧ q = 4 then DetectOutcome.timeout
          else DetectOutcome.notFound) none).1 ∧
    Event.pollStarted ∈
      (scan_gpio BCM_TO_PHYS
        ⟨[("A", ⟨"A", true, [], 0⟩), ("B", ⟨"B", true, [], 1⟩)], [], false⟩
        (fun n q => if n = "A" ∧ q = 4 then DetectOutcome.timeout
          else DetectOutcome.notFound) none).1 := by
  have h := scan_gpio_timeout_not_fatal BCM_TO_PHYS
    ⟨[("A", ⟨"A", true, [], 0⟩), ("B", ⟨"B", true, [], 1⟩)], [], false⟩
    (fun n q => if n = "A" ∧ q = 4 then DetectOutcome.timeout else DetectOutcome.notFound)
    [] [("B", ⟨"B", true, [], 1⟩)] "A" ⟨"A", true, [], 0⟩ 4
    rfl (by intro kv hkv; cases hkv) rfl (by decide) (by decide) (by decide) (by decide)
  refine ⟨h.1, ?_, h.2.2.2⟩
  exact h.2.1 [] [] "B" ⟨"B", true, [], 1⟩ rfl (by intro kv hkv; cases hkv) rfl

/-! ### Poll-loop robustness (C8) -/

/-- C8: in every pass of the poll loop each registered assignment gets its
`read` call no matter how any other (or the same) item's read behaves —
failures are caught per item; with no cancellation the loop performs
every observed pass in full (one complete pass per fuel unit), and a
cancellation delivered between passes ends the loop cleanly before the
next pass. -/
theorem poll_loop_failures_skipped (m : List (Nat × Nat)) (reg : List (String × PluginInfo))
    (renv : String → Nat → ReadOutcome) (fixed : List (Nat × String)) :
    (∀ pin sensor, (pin, sensor) ∈ fixed → (alookup reg sensor).isSome = true →
      Event.readCall sensor pin ∈ pollPass m reg renv fixed) ∧
    (∀ fuel cancel, (∀ i, cancel i = false) →
      pollLoop m reg renv fixed fuel cancel =
        (List.replicate fuel (pollPass m reg renv fixed)).flatten) ∧
    (∀ fuel cancel, cancel 0 = true → pollLoop m reg renv fixed (fuel + 1) cancel = []) := by
  refine ⟨?_, ?_, ?_⟩
  · intro pin sensor hmem hsome
    refine List.mem_flatMap.mpr ⟨(pin, sensor), hmem, ?_⟩
    rw [pollItem]
    cases hreg : alookup reg sensor with
    | none =>
      rw [hreg] at hsome
      exact absurd hsome (by simp)
    | some p =>
      cases hr : renv sensor pin with
      | ok st i c => exact List.mem_cons_self _ _
      | noResult => exact List.mem_singleton.mpr rfl
      | failure => exact List.mem_singleton.mpr rfl
  · intro fuel
    induction fuel with
    | zero => intro cancel _; rfl
    | succ n ih =>
      intro cancel hcancel
      rw [pollLoop, hcancel 0, List.replicate_succ, List.flatten_cons]
      simp only [Bool.false_eq_true, if_false]
      rw [ih (fun i => cancel (i + 1)) (fun i => hcancel (i + 1))]
  · intro fuel cancel hc
    rw [pollLoop, hc]
    simp

/-- Witness for C8: with two assignments where the first sensor's read
raises, the second is still read in the same pass; with no cancellation
two full passes run; with cancellation before the first pass the loop
exits with no events. -/
theorem poll_loop_failures_skipped_witness :
    Event.readCall "LM393" 27 ∈ pollPass BCM_TO_PHYS
      [("DHT22", ⟨"DHT22", true, [], 0⟩), ("LM393", ⟨"LM393", false, ["DATA"], 1⟩)]
      (fun n _ => if n = "DHT22" then ReadOutcome.failure
        else ReadOutcome.ok "LM393" "BRIGHT" "cyan")
      [(17, "DHT22"), (27, "LM393")] ∧
    pollLoop BCM_TO_PHYS
      [("DHT22", ⟨"DHT22", true, [], 0⟩), ("LM393", ⟨"LM393", false, ["DATA"], 1⟩)]
      (fun n _ => if n = "DHT22" then ReadOutcome.failure
        else ReadOutcome.ok "LM393" "BRIGHT" "cyan")
      [(17, "DHT22"), (27, "LM393")] 2 (fun _ => false) =
      (List.replicate 2 (pollPass BCM_TO_PHYS
        [("DHT22", ⟨"DHT22", true, [], 0⟩), ("LM393", ⟨"LM393", false, ["DATA"], 1⟩)]
        (fun n _ => if n = "DHT22" then ReadOutcome.failure
          else ReadOutcome.ok "LM393" "BRIGHT" "cyan")
        [(17, "DHT22"), (27, "LM393")])).flatten ∧
    pollLoop BCM_TO_PHYS
      [("DHT22", ⟨"DHT22", true, [], 0⟩), ("LM393", ⟨"LM393", false, ["DATA"], 1⟩)]
      (fun n _ => if n = "DHT22" then ReadOutcome.failure
        else ReadOutcome.ok "LM393" "BRIGHT" "cyan")
      [(17, "DHT22"), (27, "LM393")] 1 (fun _ => true) = [] := by
  have h := poll_loop_failures_skipped BCM_TO_PHYS
    [("DHT22", ⟨"DHT22", true, [], 0⟩), ("LM393", ⟨"LM393", false, ["DATA"], 1⟩)]
    (fun n _ => if n = "DHT22" then ReadOutcome.failure
      else ReadOutcome.ok "LM393" "BRIGHT" "cyan")
    [(17, "DHT22"), (27, "LM393")]
  exact ⟨h.1 27 "LM393" (by decide) (by decide),
    h.2.1 2 (fun _ => false) (fun _ => rfl),
    h.2.2 0 (fun _ => true) rfl⟩

/-! ### Manual role assignments are stored verbatim and never polled (C10) -/

theorem joinS_ne_empty (a b : String) : joinS a b ≠ "" := by
  intro h
  have hd := congrArg String.data h
  rw [joinS_data] at hd
  simp at hd

/-- C10: selecting a multi-pin catalog entry "Name:Role" stores the full
string verbatim in the Assignment Store; the poll loop's registry lookup
under that exact string finds nothing when plugin names are ':'-free (the
registry holds bare names), the stored string is not "I2C", so the poll
pass performs no work at all for that item — role assignments are never
polled; and the plugin context object consists of exactly a GPIO handle
and the semaphore (no role-to-pin mapping field exists). -/
theorem role_assignment_stored_verbatim_never_polled
    (fixed : List (Nat × String)) (pin : Nat) (nameR role : String)
    (reg : List (String × PluginInfo)) (m : List (Nat × Nat))
    (renv : String → Nat → ReadOutcome)
    (hkeys : ∀ kv ∈ reg, colonFree kv.1) :
    alookup (on_select_changed fixed (joinS nameR role) (some pin)) pin
      = some (joinS nameR role) ∧
    alookup reg (joinS nameR role) = none ∧
    pollItem m reg renv (pin, joinS nameR role) = [] ∧
    (∀ q, Event.readCall (joinS nameR role) q ∉ pollPass m reg renv fixed) ∧
    (∀ (G S : Type) (ctx : PluginCtx G S), ctx = ⟨ctx.GPIO, ctx.gpio_sem⟩) := by
  have hnone : alookup reg (joinS nameR role) = none := by
    apply alookup_eq_none_of_absent
    intro kv hkv
    exact bare_ne_joinS kv.1 nameR role (hkeys kv hkv)
  refine ⟨?_, hnone, ?_, ?_, ?_⟩
  · rw [on_select_changed, if_neg (joinS_ne_empty nameR role)]
    rw [alookup_dictInsert, if_pos rfl]
  · rw [pollItem]
    have hnone2 : alookup reg (Prod.snd (pin, joinS nameR role)) = none := hnone
    rw [hnone2]
    rw [if_neg]
    intro he
    exact bare_ne_joinS "I2C" nameR role (by decide) he.symm
  · intro q h
    obtain ⟨item, _, hitem⟩ := List.mem_flatMap.mp h
    rcases pollItem_mem m reg renv item _ hitem with ⟨hsome, he⟩ | ⟨st, i, c, he⟩ | ⟨_, he⟩
    · have h2 : joinS nameR role = item.2 := by injection he
      rw [← h2, hnone] at hsome
      exact absurd hsome (by simp)
    · exact Event.noConfusion he
    · exact Event.noConfusion he
  · intro G S ctx
    rfl

/-- Witness for C10: assigning "TM1637:CLK" to pin 5 stores the full
string, the registry (bare names) resolves nothing under it, and the poll
pass over that assignment emits no events and no read call. -/
theorem role_assignment_stored_verbatim_never_polled_witness :
    alookup (on_select_changed [] (joinS "TM1637" "CLK") (some 5)) 5
      = some (joinS "TM1637" "CLK") ∧
    alookup [("TM1637", (⟨"TM1637", false, ["CLK", "DIO"], 0⟩ : PluginInfo))]
      (joinS "TM1637" "CLK") = none ∧
    pollItem BCM_TO_PHYS [("TM1637", ⟨"TM1637", false, ["CLK", "DIO"], 0⟩)]
      (fun _ _ => ReadOutcome.noResult) (5, joinS "TM1637" "CLK") = [] ∧
    Event.readCall (joinS "TM1637" "CLK") 5 ∉
      pollPass BCM_TO_PHYS [("TM1637", ⟨"TM1637", false, ["CLK", "DIO"], 0⟩)]
        (fun _ _ => ReadOutcome.noResult) [(5, joinS "TM1637" "CLK")] := by
  have h := role_assignment_stored_verbatim_never_polled
    [(5, joinS "TM1637" "CLK")] 5 "TM1637" "CLK"
    [("TM1637", ⟨"TM1637", false, ["CLK", "DIO"], 0⟩)] BCM_TO_PHYS
    (fun _ _ => ReadOutcome.noResult) (by decide)
  have h0 := role_assignment_stored_verbatim_never_polled
    [] 5 "TM1637" "CLK"
    [("TM1637", ⟨"TM1637", false, ["CLK", "DIO"], 0⟩)] BCM_TO_PHYS
    (fun _ _ => ReadOutcome.noResult) (by decide)
  exact ⟨h0.1, h.2.1, h.2.2.1, h.2.2.2.1 5⟩

end SensorTest
